import Mathlib

/-!
Verification of the heap instrumentation core (`src/heapInst.c` together with
`include/heapInst/heapInst.h` and the stream-port interface `heapInstStream.h`)
of the pico2-arm-semihosting repository.

The C module keeps a static record buffer, an initialized flag, a
streamport-available flag and a set of platform hooks.  We embed that state as
an explicit structure and every C function as a state-passing Lean function.
Observable effects (hook invocations, stream-port calls, text written to the
default stdout sink) are accumulated in an event list inside the state.
Machine integers are modelled as `Nat` with explicit `% 2^w` at the points
where the C source performs a narrowing cast.
-/

namespace HeapInst

/-! ## printf-style number formatting

`heap_inst_logf` renders its arguments with `vsnprintf` into a 256-byte
buffer, so at most 255 characters survive per call.  The numeric conversions
used by the C file are `%u`/`%zu`/`%llu` (decimal) and `PRIx32` (lowercase
hex, no padding) plus one `%08PRIx32` (zero-padded hex) and `%d`/`%p`.
We model them with a fuel-bounded digit expansion; 64 digits of fuel are
exact for every value a `uint64_t`/`size_t`/`int` can hold.  -/

/-- Digit expansion of `n` in base `b`, most significant digit first,
producing at most `fuel` digits (64 suffices for all C integer widths). -/
def toBaseAux (b : Nat) : Nat → Nat → List Char
  | 0, _ => []
  | fuel+1, n => if n = 0 then [] else toBaseAux b fuel (n / b) ++ [Nat.digitChar (n % b)]

/-- printf-style rendering of an unsigned value in base `b` (prints "0" for 0). -/
def fmtNat (b n : Nat) : String := if n = 0 then "0" else ⟨toBaseAux b 64 n⟩

/-- Decimal rendering (`%u`, `%zu`, `%llu`). -/
def fmtDec (n : Nat) : String := fmtNat 10 n

/-- Lowercase hex rendering without padding (`%` PRIx32). -/
def fmtHex (n : Nat) : String := fmtNat 16 n

/-- Signed decimal rendering (`%d`). -/
def fmtInt (i : Int) : String := if i < 0 then "-" ++ fmtDec i.natAbs else fmtDec i.toNat

/-- Zero-padded 8-digit lowercase hex (`%08` PRIx32). -/
def padHex8 (n : Nat) : String :=
  ⟨List.replicate (8 - (if n = 0 then ['0'] else toBaseAux 16 64 n).length) '0'
    ++ (if n = 0 then ['0'] else toBaseAux 16 64 n)⟩

/-- `%p` rendering of a pointer value (glibc style: `0x` prefixed hex, NULL
prints as "(nil)"); the exact text is implementation-defined in C. -/
def fmtPtr (n : Nat) : String := if n = 0 then "(nil)" else "0x" ++ fmtHex n

/-- Truncation performed by `vsnprintf(msg, sizeof(msg), ...)` with a
256-byte buffer: at most 255 characters are kept. -/
def trunc255 (s : String) : String := ⟨s.data.take 255⟩

theorem toBaseAux_length_le (b : Nat) : ∀ fuel n, (toBaseAux b fuel n).length ≤ fuel := by
  intro fuel
  induction fuel with
  | zero => intro n; exact le_rfl
  | succ f ih =>
    intro n
    simp only [toBaseAux]
    split
    · simp
    · simpa using Nat.add_le_add (ih (n / b)) (le_refl 1)

theorem fmtNat_length_le (b n : Nat) : (fmtNat b n).length ≤ 64 := by
  unfold fmtNat
  split
  · decide
  · simpa [String.length] using toBaseAux_length_le b 64 n

theorem fmtInt_length_le (i : Int) : (fmtInt i).length ≤ 65 := by
  unfold fmtInt
  split
  · rw [String.length_append]
    have h1 : ("-" : String).length = 1 := by decide
    have h2 := fmtNat_length_le 10 i.natAbs
    unfold fmtDec
    omega
  · exact le_trans (fmtNat_length_le 10 i.toNat) (by omega)

theorem trunc255_eq_of_le (s : String) (h : s.length ≤ 255) : trunc255 s = s := by
  unfold trunc255
  cases s with
  | mk data =>
    simp only [String.length] at h
    simp [List.take_of_length_le h]

/-! ## Trace records (`heap_inst_record_t`)

The C struct is `uint8 operation; uint8 padding; uint16 reserved;
uint64 timestamp_us; uint32 arg1, arg2, arg3`.  Under the ARM EABI and
x86-64 ABIs `uint64_t` is 8-byte aligned, so the layout has 4 padding
bytes before `timestamp_us` and 4 tail padding bytes: `sizeof` is 32
(the header's doc comment claims a "fixed 24-byte record format", which
is the packed field content, not the actual struct size). -/

/-- Heap operation identifiers (`heap_inst_operation_t`). -/
def HEAP_OP_INIT : Nat := 0
def HEAP_OP_MALLOC : Nat := 1
def HEAP_OP_FREE : Nat := 2
def HEAP_OP_REALLOC : Nat := 3

/-- Flag bit for the Init record (`HEAP_INIT_FLAG_HEAP_INFO_VALID = 1 << 0`). -/
def HEAP_INIT_FLAG_HEAP_INFO_VALID : Nat := 1

/-- One trace record (`heap_inst_record_t`); fields hold the numeric value of
the corresponding fixed-width C field. -/
structure Record where
  operation : Nat
  padding : Nat
  reserved : Nat
  timestamp_us : Nat
  arg1 : Nat
  arg2 : Nat
  arg3 : Nat
  deriving DecidableEq, Repr

/-- Field bounds enforced by the C fixed-width types. -/
def Record.WF (r : Record) : Prop :=
  r.operation < 2^8 ∧ r.padding < 2^8 ∧ r.reserved < 2^16 ∧
  r.timestamp_us < 2^64 ∧ r.arg1 < 2^32 ∧ r.arg2 < 2^32 ∧ r.arg3 < 2^32

instance (r : Record) : Decidable r.WF := by
  unfold Record.WF; infer_instance

/-- The struct size `sizeof(heap_inst_record_t)`: 24 bytes of field content
plus 4 alignment-padding bytes before the 8-aligned `timestamp_us` plus 4
tail-padding bytes. -/
def recordSize : Nat := 32

/-- Little-endian byte expansion of `n` over `w` bytes. -/
def leBytes : Nat → Nat → List Nat
  | 0, _ => []
  | w+1, n => n % 256 :: leBytes w (n / 256)

/-- On-wire bytes of one record: the raw memory image of the struct on a
little-endian target, padding bytes zero (static storage is zero
initialized and every record is built from a fully-designated initializer). -/
def encodeRecord (r : Record) : List Nat :=
  leBytes 1 r.operation ++ leBytes 1 r.padding ++ leBytes 2 r.reserved ++
    List.replicate 4 0 ++ leBytes 8 r.timestamp_us ++
    leBytes 4 r.arg1 ++ leBytes 4 r.arg2 ++ leBytes 4 r.arg3 ++ List.replicate 4 0

/-- Byte image of an array of records, in order. -/
def encodeRecords : List Record → List Nat
  | [] => []
  | r :: rs => encodeRecord r ++ encodeRecords rs

/-- Value of a little-endian byte list. -/
def leVal : List Nat → Nat
  | [] => 0
  | b :: bs => b + 256 * leVal bs

/-- Reader view of one 32-byte chunk, per the struct layout. -/
def decodeRecord (bs : List Nat) : Record :=
  { operation := leVal ((bs.drop 0).take 1)
    padding := leVal ((bs.drop 1).take 1)
    reserved := leVal ((bs.drop 2).take 2)
    timestamp_us := leVal ((bs.drop 8).take 8)
    arg1 := leVal ((bs.drop 16).take 4)
    arg2 := leVal ((bs.drop 20).take 4)
    arg3 := leVal ((bs.drop 24).take 4) }

/-- Chunk a byte stream into 32-byte records; `none` when the length is not
a multiple of the record size.  Fuel-driven structural recursion. -/
def decodeRecordsAux : Nat → List Nat → Option (List Record)
  | _, [] => some []
  | 0, _ :: _ => none
  | fuel+1, b :: bs =>
    if 32 ≤ (b :: bs).length then
      match decodeRecordsAux fuel ((b :: bs).drop 32) with
      | some rs => some (decodeRecord ((b :: bs).take 32) :: rs)
      | none => none
    else none

/-- Decode a flat byte stream as the conforming reader of §6 does. -/
def decodeRecords (bs : List Nat) : Option (List Record) :=
  decodeRecordsAux bs.length bs

theorem length_leBytes (w : Nat) : ∀ n, (leBytes w n).length = w := by
  induction w with
  | zero => intro n; simp [leBytes]
  | succ w ih => intro n; simp [leBytes, ih]

theorem length_encodeRecord (r : Record) : (encodeRecord r).length = recordSize := by
  simp [encodeRecord, length_leBytes, recordSize]

theorem leVal_leBytes (w : Nat) : ∀ n, leVal (leBytes w n) = n % 256^w := by
  induction w with
  | zero => intro n; simp [leBytes, leVal, Nat.mod_one]
  | succ w ih =>
    intro n
    simp only [leBytes, leVal, ih]
    have h256 : (256:Nat) ^ (w+1) = 256 * 256 ^ w := by ring
    rw [h256, Nat.mod_mul]

/-! ## Platform hooks, transport and tracer state

`g_platform_hooks` holds four optional callback/context pairs.  The
timestamp hook is modelled as a function of the number of timestamp calls
made so far (the value sequence the platform clock returns); the log, lock
and unlock hooks are modelled by an opaque identity (standing for the
function pointer plus context), and every invocation of them is recorded
as an event.  The stream port (an external collaborator behind
`heapInstStreamPort_Init/Write/Flush`) is a model parameter: a result for
`Init` and a write function that may depend on the bytes already accepted. -/

/-- The active platform hook set (`heap_inst_platform_hooks_t`). -/
structure Hooks where
  timestamp_us : Option (Nat → Nat)
  log : Option Nat
  lock : Option Nat
  unlock : Option Nat

/-- The all-zero hook set (`g_platform_hooks = {0}` / after `memset`). -/
def emptyHooks : Hooks := { timestamp_us := none, log := none, lock := none, unlock := none }

/-- Observable effects of the tracer. -/
inductive Event where
  | lockEv (id : Nat)
  | unlockEv (id : Nat)
  | logHook (id : Nat) (msg : String)
  | logStdout (msg : String)
  | portInit (res : Int)
  | portWrite (bytes : List Nat) (res : Int)
  | portFlush
  deriving DecidableEq, Repr

/-- Behaviour of the stream-port collaborator. -/
structure Port where
  initRes : Int
  writeFn : List Nat → List Nat → Int

/-- Build-time configuration and platform environment. -/
structure Cfg where
  debugLog : Bool
  bufferBytes : Nat
  autoAvail : Bool
  autoBase : Nat
  autoSize : Nat
  port : Port

/-- Capacity of the static buffer:
`sizeof(heap_buffer)/sizeof(heap_buffer[0])` with
`heap_inst_record_t heap_buffer[HEAP_INST_BUFFER_SIZE / sizeof(heap_inst_record_t)]`. -/
def bufferCapacity (cfg : Cfg) : Nat := cfg.bufferBytes / recordSize

/-- Optional heap-bounds hint (`heap_inst_heap_info_t`); `heap_start` is the
pointer value (`0` = NULL). -/
structure HeapInfo where
  heap_start : Nat
  heap_size : Nat

/-- The mutable module state of `heapInst.c` plus the accumulated observable
effects (`events`) and the bytes accepted by the stream port (`portAccum`).
`tick` counts timestamp-hook invocations and drives the modelled clock. -/
structure St where
  heap_buffer : List Record
  tracker_initialized : Bool
  streamport_available : Bool
  hooks : Hooks
  tick : Nat
  portAccum : List Nat
  events : List Event

/-- The state at process start: zeroed statics. -/
def freshSt : St :=
  { heap_buffer := [], tracker_initialized := false, streamport_available := false,
    hooks := emptyHooks, tick := 0, portAccum := [], events := [] }

/-- Append one observable event. -/
def emit (e : Event) (s : St) : St := { s with events := s.events ++ [e] }

/-! ## The C functions -/

/-- `heapInst_lock`: invoke the lock hook when registered, else do nothing. -/
def heapInst_lock (s : St) : St :=
  match s.hooks.lock with
  | some id => emit (.lockEv id) s
  | none => s

/-- `heapInst_unlock`: invoke the unlock hook when registered, else do nothing. -/
def heapInst_unlock (s : St) : St :=
  match s.hooks.unlock with
  | some id => emit (.unlockEv id) s
  | none => s

/-- `heap_inst_logf`: with `HEAPINST_CFG_DEBUG_LOG` enabled, format (with
`vsnprintf` truncation) and hand the text to the log hook, falling back to
`fputs(msg, stdout)` when no log hook is registered; with the switch
disabled the macro expands to `((void)0)`. -/
def heap_inst_logf (cfg : Cfg) (msg : String) (s : St) : St :=
  if cfg.debugLog then
    match s.hooks.log with
    | some id => emit (.logHook id (trunc255 msg)) s
    | none => emit (.logStdout (trunc255 msg)) s
  else s

/-- `heap_inst_timestamp_us`: value of the timestamp hook (a `uint64_t`),
or 0 when no hook is registered. -/
def heap_inst_timestamp_us (s : St) : Nat × St :=
  match s.hooks.timestamp_us with
  | some f => (f s.tick % 2^64, { s with tick := s.tick + 1 })
  | none => (0, s)

/-- One call to `heapInstStreamPort_Write`: the port reports a result; a
non-negative result `r` means the first `r` bytes were accepted. -/
def portWriteStep (cfg : Cfg) (bytes : List Nat) (s : St) : Int × St :=
  let r := cfg.port.writeFn s.portAccum bytes
  (r, { s with
          portAccum := if 0 ≤ r then s.portAccum ++ bytes.take r.toNat else s.portAccum,
          events := s.events ++ [.portWrite bytes r] })

/-- Literal diagnostic texts of `flush_buffer_to_transport`. -/
def unavailMsg : String := "[HEAP_TRACKER] Streamport unavailable; emitting text trace\n"
def fallbackMsg : String := "[HEAP_TRACKER] Falling back to text trace\n"
def startMarker : String := "--- HEAP_TRACE_START ---\n"
def endMarker : String := "--- HEAP_TRACE_END ---\n"

/-- Text of the short-write diagnostic
`"[HEAP_TRACKER] Streamport write short (%d/%zu bytes)\n"`. -/
def shortMsg (bytes_written : Int) (expected : Nat) : String :=
  "[HEAP_TRACKER] Streamport write short (" ++ fmtInt bytes_written ++ "/" ++
    fmtDec expected ++ " bytes)\n"

/-- The `for` loop of `flush_buffer_to_transport` that renders each buffered
record as one text line: a `RECORD:i,OP:o,TIME:t` piece, an operation-specific
piece (none for an unrecognized operation value), and a newline, each in its
own `heap_inst_logf` call. -/
def emitTraceLines (cfg : Cfg) : Nat → List Record → St → St
  | _, [], s => s
  | i, r :: rest, s =>
    let s := heap_inst_logf cfg
      ("RECORD:" ++ fmtDec i ++ ",OP:" ++ fmtDec r.operation ++ ",TIME:" ++ fmtDec r.timestamp_us) s
    let s :=
      if r.operation = HEAP_OP_INIT then
        heap_inst_logf cfg
          (",HEAP_BASE:0x" ++ fmtHex r.arg1 ++ ",HEAP_SIZE:" ++ fmtDec r.arg2 ++
            ",FLAGS:0x" ++ fmtHex r.arg3) s
      else if r.operation = HEAP_OP_MALLOC then
        heap_inst_logf cfg (",SIZE:" ++ fmtDec r.arg1 ++ ",PTR:0x" ++ fmtHex r.arg2) s
      else if r.operation = HEAP_OP_FREE then
        heap_inst_logf cfg (",PTR:0x" ++ fmtHex r.arg1) s
      else if r.operation = HEAP_OP_REALLOC then
        heap_inst_logf cfg
          (",OLD_PTR:0x" ++ fmtHex r.arg1 ++ ",SIZE:" ++ fmtDec r.arg2 ++
            ",NEW_PTR:0x" ++ fmtHex r.arg3) s
      else s
    let s := heap_inst_logf cfg "\n" s
    emitTraceLines cfg (i+1) rest s

/-- `flush_buffer_to_transport`: no-op on an empty buffer; otherwise write the
raw buffer bytes to the stream port when available (success = non-negative
result equal to the expected byte count), always following the write with
`heapInstStreamPort_Flush`; when the write did not fully succeed (or no port
is available) render every record as text through the log hook bracketed by
the start/end markers; finally reset `buffer_index` to 0. -/
def flush_buffer_to_transport (cfg : Cfg) (s : St) : St :=
  if s.heap_buffer.length = 0 then s
  else
    let expected_bytes := s.heap_buffer.length * recordSize
    let res :=
      if s.streamport_available then
        let (bytes_written, s1) := portWriteStep cfg (encodeRecords s.heap_buffer) s
        let wrote_all : Bool :=
          decide (0 ≤ bytes_written) && decide (bytes_written = (expected_bytes : Int))
        let s1 :=
          if wrote_all then s1
          else heap_inst_logf cfg (shortMsg bytes_written expected_bytes) s1
        (emit .portFlush s1, wrote_all)
      else (s, false)
    let s2 := res.1
    let s2 :=
      if res.2 then s2
      else
        let s2 :=
          if s.streamport_available then heap_inst_logf cfg fallbackMsg s2
          else heap_inst_logf cfg unavailMsg s2
        let s2 := heap_inst_logf cfg startMarker s2
        let s2 := emitTraceLines cfg 0 s.heap_buffer s2
        heap_inst_logf cfg endMarker s2
    { s2 with heap_buffer := [] }

/-- `log_heap_operation`: take the lock, flush first when the buffer is full,
append the record, release the lock.  (With a zero-sized buffer the C store
`heap_buffer[buffer_index++]` would be out of bounds; the theorems therefore
assume a positive capacity, which every real configuration has.) -/
def log_heap_operation (cfg : Cfg) (record : Record) (s : St) : St :=
  let s := heapInst_lock s
  let s :=
    if bufferCapacity cfg ≤ s.heap_buffer.length then flush_buffer_to_transport cfg s else s
  let s := { s with heap_buffer := s.heap_buffer ++ [record] }
  heapInst_unlock s

/-- `get_auto_detected_heap_info`: on ARM builds the linker symbols give the
heap base and size (truncated to `uint32_t`); elsewhere both are 0. -/
def get_auto_detected_heap_info (cfg : Cfg) : Nat × Nat :=
  if cfg.autoAvail then (cfg.autoBase % 2^32, cfg.autoSize % 2^32) else (0, 0)

/-- Auto-detection branch of `heap_inst_init`: detected bounds, with the
valid flag set only when both are non-zero. -/
def autoBoundsWithFlag (cfg : Cfg) : Nat × Nat × Nat :=
  let p := get_auto_detected_heap_info cfg
  (p.1, p.2, if p.1 ≠ 0 ∧ p.2 ≠ 0 then HEAP_INIT_FLAG_HEAP_INFO_VALID else 0)

/-- Heap-bounds selection of `heap_inst_init` (lines 181-197 of heapInst.c):
the explicit hint when non-NULL, with non-NULL start and positive size
(narrowed to `uint32_t`, valid flag set); otherwise auto-detection. -/
def chooseBounds (cfg : Cfg) (heap_info : Option HeapInfo) : Nat × Nat × Nat :=
  match heap_info with
  | some hi =>
    if hi.heap_start ≠ 0 ∧ 0 < hi.heap_size then
      (hi.heap_start % 2^32, hi.heap_size % 2^32, HEAP_INIT_FLAG_HEAP_INFO_VALID)
    else autoBoundsWithFlag cfg
  | none => autoBoundsWithFlag cfg

/-- `heap_inst_init`: idempotent initialization.  On the first call it sets
the initialized flag, zeroes the buffer index, initializes the stream port,
reads the clock, chooses heap bounds (explicit non-degenerate hint, else
auto-detection), appends the Init record and logs diagnostics. -/
def heap_inst_init (cfg : Cfg) (heap_info : Option HeapInfo) (s : St) : St :=
  if s.tracker_initialized then s
  else
    let s := { s with tracker_initialized := true, heap_buffer := [] }
    let s := { s with streamport_available := decide (cfg.port.initRes = 0) }
    let s := emit (.portInit cfg.port.initRes) s
    let p := heap_inst_timestamp_us s
    let current_time := p.1
    let s := p.2
    let s := heap_inst_logf cfg
      ("[HEAP_TRACKER] Current timestamp_us(): " ++ fmtDec current_time ++ "\n") s
    let b := chooseBounds cfg heap_info
    let heap_base := b.1
    let heap_size := b.2.1
    let flags := b.2.2
    let init_record : Record :=
      { operation := HEAP_OP_INIT, timestamp_us := current_time,
        arg1 := heap_base, arg2 := heap_size, arg3 := flags, padding := 0, reserved := 0 }
    let s := log_heap_operation cfg init_record s
    let s := heap_inst_logf cfg
      ("[HEAP_TRACKER] Initialized - buffer size: " ++ fmtDec (bufferCapacity cfg) ++
        " records\n") s
    let s := heap_inst_logf cfg
      ("[HEAP_TRACKER] Record size: " ++ fmtDec recordSize ++ " bytes\n") s
    if Nat.land flags HEAP_INIT_FLAG_HEAP_INFO_VALID ≠ 0 then
      heap_inst_logf cfg
        ("[HEAP_TRACKER] Heap region: 0x" ++ padHex8 heap_base ++ " - 0x" ++
          padHex8 ((heap_base + heap_size) % 2^32) ++ " (" ++ fmtDec heap_size ++
          " bytes)\n") s
    else
      heap_inst_logf cfg "[HEAP_TRACKER] Heap region: unknown (will infer from allocations)\n" s

/-- `heap_inst_flush`: flush only when initialized and the buffer is non-empty. -/
def heap_inst_flush (cfg : Cfg) (s : St) : St :=
  if s.tracker_initialized ∧ 0 < s.heap_buffer.length then flush_buffer_to_transport cfg s else s

/-- `heap_inst_is_initialized`. -/
def heap_inst_is_initialized (s : St) : Bool := s.tracker_initialized

/-- `heap_inst_record_malloc`: lazy init, then append a Malloc record with the
current timestamp and the narrowed size/pointer, then a one-line debug log. -/
def heap_inst_record_malloc (cfg : Cfg) (size result : Nat) (s : St) : St :=
  let s := if s.tracker_initialized then s else heap_inst_init cfg none s
  let p := heap_inst_timestamp_us s
  let record : Record :=
    { operation := HEAP_OP_MALLOC, timestamp_us := p.1,
      arg1 := size % 2^32, arg2 := result % 2^32, arg3 := 0, padding := 0, reserved := 0 }
  let s := log_heap_operation cfg record p.2
  heap_inst_logf cfg
    ("[MALLOC] Requested " ++ fmtDec size ++ " bytes, allocated at " ++ fmtPtr result ++ "\n") s

/-- `heap_inst_record_free`. -/
def heap_inst_record_free (cfg : Cfg) (ptr : Nat) (s : St) : St :=
  let s := if s.tracker_initialized then s else heap_inst_init cfg none s
  let p := heap_inst_timestamp_us s
  let record : Record :=
    { operation := HEAP_OP_FREE, timestamp_us := p.1,
      arg1 := ptr % 2^32, arg2 := 0, arg3 := 0, padding := 0, reserved := 0 }
  let s := log_heap_operation cfg record p.2
  if ptr ≠ 0 then
    heap_inst_logf cfg ("[FREE] Releasing memory at " ++ fmtPtr ptr ++ "\n") s
  else
    heap_inst_logf cfg "[FREE] Attempted to free NULL pointer\n" s

/-- `heap_inst_record_realloc`. -/
def heap_inst_record_realloc (cfg : Cfg) (old_ptr new_size result : Nat) (s : St) : St :=
  let s := if s.tracker_initialized then s else heap_inst_init cfg none s
  let p := heap_inst_timestamp_us s
  let record : Record :=
    { operation := HEAP_OP_REALLOC, timestamp_us := p.1,
      arg1 := old_ptr % 2^32, arg2 := new_size % 2^32, arg3 := result % 2^32,
      padding := 0, reserved := 0 }
  let s := log_heap_operation cfg record p.2
  if old_ptr = 0 then
    heap_inst_logf cfg
      ("[REALLOC] NULL -> " ++ fmtDec new_size ++ " bytes (like malloc), allocated at " ++
        fmtPtr result ++ "\n") s
  else if new_size = 0 then
    heap_inst_logf cfg ("[REALLOC] " ++ fmtPtr old_ptr ++ " -> 0 bytes (like free)\n") s
  else
    heap_inst_logf cfg
      ("[REALLOC] " ++ fmtPtr old_ptr ++ " -> " ++ fmtDec new_size ++ " bytes, new address: " ++
        fmtPtr result ++ "\n") s

/-- `heap_inst_get_buffer_count`. -/
def heap_inst_get_buffer_count (s : St) : Nat := s.heap_buffer.length

/-- `heap_inst_get_buffer_capacity`. -/
def heap_inst_get_buffer_capacity (cfg : Cfg) : Nat := bufferCapacity cfg

/-- `heap_inst_register_platform_hooks`: copy the given hook set, or `memset`
the active set to zero when given NULL. -/
def heap_inst_register_platform_hooks (hooks : Option Hooks) (s : St) : St :=
  match hooks with
  | some h => { s with hooks := h }
  | none => { s with hooks := emptyHooks }

/-! ## API call sequences -/

/-- One call through the public API. -/
inductive ApiCall where
  | initCall (heap_info : Option HeapInfo)
  | mallocCall (size result : Nat)
  | freeCall (ptr : Nat)
  | reallocCall (old_ptr new_size result : Nat)
  | flushCall
  | registerCall (hooks : Option Hooks)

/-- Semantics of one API call. -/
def runCall (cfg : Cfg) : ApiCall → St → St
  | .initCall hi, s => heap_inst_init cfg hi s
  | .mallocCall sz r, s => heap_inst_record_malloc cfg sz r s
  | .freeCall p, s => heap_inst_record_free cfg p s
  | .reallocCall o n r, s => heap_inst_record_realloc cfg o n r s
  | .flushCall, s => heap_inst_flush cfg s
  | .registerCall h, s => heap_inst_register_platform_hooks h s

/-- Semantics of a call sequence, first call first. -/
def runCalls (cfg : Cfg) : List ApiCall → St → St
  | [], s => s
  | c :: cs, s => runCalls cfg cs (runCall cfg c s)

/-- A tracked heap operation as issued by the allocation wrappers. -/
inductive TrackedOp where
  | mallocOp (size result : Nat)
  | freeOp (ptr : Nat)
  | reallocOp (old_ptr new_size result : Nat)

/-- Semantics of one tracked operation. -/
def runTrackedOp (cfg : Cfg) : TrackedOp → St → St
  | .mallocOp sz r, s => heap_inst_record_malloc cfg sz r s
  | .freeOp p, s => heap_inst_record_free cfg p s
  | .reallocOp o n r, s => heap_inst_record_realloc cfg o n r s

/-- Semantics of a tracked-operation sequence. -/
def runTracked (cfg : Cfg) : List TrackedOp → St → St
  | [], s => s
  | op :: ops, s => runTracked cfg ops (runTrackedOp cfg op s)

/-! ## Observable log text

Spec-side view of the text the tracer emits: concatenation of the messages
handed to the log hook (or written to stdout), and the §6 text-fallback
format written independently of the flush implementation. -/

/-- Concatenated text of all log messages in an event list (any sink). -/
def logOutput : List Event → String
  | [] => ""
  | .logHook _ m :: es => m ++ logOutput es
  | .logStdout m :: es => m ++ logOutput es
  | _ :: es => logOutput es

/-- Concatenated text of the messages printed to the default stdout sink. -/
def stdoutOutput : List Event → String
  | [] => ""
  | .logStdout m :: es => m ++ stdoutOutput es
  | _ :: es => stdoutOutput es

/-- Operation-specific tail of a fallback text line (`none` for an
unrecognized operation value, where the C `switch` emits nothing). -/
def opFieldsPiece (r : Record) : Option String :=
  if r.operation = HEAP_OP_INIT then
    some (",HEAP_BASE:0x" ++ fmtHex r.arg1 ++ ",HEAP_SIZE:" ++ fmtDec r.arg2 ++
      ",FLAGS:0x" ++ fmtHex r.arg3)
  else if r.operation = HEAP_OP_MALLOC then
    some (",SIZE:" ++ fmtDec r.arg1 ++ ",PTR:0x" ++ fmtHex r.arg2)
  else if r.operation = HEAP_OP_FREE then
    some (",PTR:0x" ++ fmtHex r.arg1)
  else if r.operation = HEAP_OP_REALLOC then
    some (",OLD_PTR:0x" ++ fmtHex r.arg1 ++ ",SIZE:" ++ fmtDec r.arg2 ++
      ",NEW_PTR:0x" ++ fmtHex r.arg3)
  else none

/-- One structured fallback text line
`RECORD:<index>,OP:<op>,TIME:<ts><op-specific fields>\n`. -/
def renderRecordLine (i : Nat) (r : Record) : String :=
  "RECORD:" ++ fmtDec i ++ ",OP:" ++ fmtDec r.operation ++ ",TIME:" ++ fmtDec r.timestamp_us ++
    (opFieldsPiece r).getD "" ++ "\n"

/-- Fallback text lines for a record list starting at index `i`. -/
def renderLines : Nat → List Record → String
  | _, [] => ""
  | i, r :: rs => renderRecordLine i r ++ renderLines (i+1) rs

/-- The full §6 fallback block: marker lines bracketing one line per record. -/
def renderedTrace (rs : List Record) : String :=
  startMarker ++ renderLines 0 rs ++ endMarker

/-- Diagnostic notice a failing flush prints before the fallback block. -/
def noticeFor (cfg : Cfg) (s : St) : String :=
  if s.streamport_available then
    shortMsg (cfg.port.writeFn s.portAccum (encodeRecords s.heap_buffer))
      (s.heap_buffer.length * recordSize) ++ fallbackMsg
  else unavailMsg

/-! ## Equation lemmas for the effect primitives -/

/-- Events appended by one `heap_inst_logf` call. -/
def logfDelta (cfg : Cfg) (lg : Option Nat) (msg : String) : List Event :=
  if cfg.debugLog then
    match lg with
    | some id => [.logHook id (trunc255 msg)]
    | none => [.logStdout (trunc255 msg)]
  else []

/-- Events appended by `heapInst_lock`. -/
def lockDelta : Option Nat → List Event
  | some id => [.lockEv id]
  | none => []

/-- Events appended by `heapInst_unlock`. -/
def unlockDelta : Option Nat → List Event
  | some id => [.unlockEv id]
  | none => []

/-- Clock value returned for the `k`-th timestamp call. -/
def tsVal (o : Option (Nat → Nat)) (k : Nat) : Nat :=
  match o with
  | some f => f k % 2^64
  | none => 0

/-- Tick counter after a timestamp call. -/
def tsTick (o : Option (Nat → Nat)) (k : Nat) : Nat :=
  match o with
  | some _ => k + 1
  | none => k

theorem heap_inst_logf_eq (cfg : Cfg) (msg : String) (s : St) :
    heap_inst_logf cfg msg s = { s with events := s.events ++ logfDelta cfg s.hooks.log msg } := by
  unfold heap_inst_logf logfDelta
  split
  · cases h : s.hooks.log <;> simp [emit, h]
  · simp

theorem heapInst_lock_eq (s : St) :
    heapInst_lock s = { s with events := s.events ++ lockDelta s.hooks.lock } := by
  cases h : s.hooks.lock <;> simp [heapInst_lock, lockDelta, emit, h]

theorem heapInst_unlock_eq (s : St) :
    heapInst_unlock s = { s with events := s.events ++ unlockDelta s.hooks.unlock } := by
  cases h : s.hooks.unlock <;> simp [heapInst_unlock, unlockDelta, emit, h]

theorem heap_inst_timestamp_us_eq (s : St) :
    heap_inst_timestamp_us s =
      (tsVal s.hooks.timestamp_us s.tick, { s with tick := tsTick s.hooks.timestamp_us s.tick }) := by
  cases h : s.hooks.timestamp_us <;> simp [heap_inst_timestamp_us, tsVal, tsTick, h]

/-- Events appended by the fallback loop for one record. -/
def lineDelta (cfg : Cfg) (lg : Option Nat) (i : Nat) (r : Record) : List Event :=
  logfDelta cfg lg
    ("RECORD:" ++ fmtDec i ++ ",OP:" ++ fmtDec r.operation ++ ",TIME:" ++ fmtDec r.timestamp_us) ++
  (match opFieldsPiece r with
    | some t => logfDelta cfg lg t
    | none => []) ++
  logfDelta cfg lg "\n"

/-- Events appended by the whole fallback loop. -/
def traceDelta (cfg : Cfg) (lg : Option Nat) : Nat → List Record → List Event
  | _, [] => []
  | i, r :: rest => lineDelta cfg lg i r ++ traceDelta cfg lg (i+1) rest

theorem emitTraceLines_eq (cfg : Cfg) :
    ∀ (rs : List Record) (i : Nat) (s : St),
      emitTraceLines cfg i rs s =
        { s with events := s.events ++ traceDelta cfg s.hooks.log i rs } := by
  intro rs
  induction rs with
  | nil => intro i s; simp [emitTraceLines, traceDelta]
  | cons r rest ih =>
    intro i s
    simp only [emitTraceLines, traceDelta, heap_inst_logf_eq]
    by_cases h0 : r.operation = HEAP_OP_INIT
    · simp [h0, heap_inst_logf_eq, ih, lineDelta, opFieldsPiece, HEAP_OP_INIT,
        HEAP_OP_MALLOC, HEAP_OP_FREE, HEAP_OP_REALLOC]
    · by_cases h1 : r.operation = HEAP_OP_MALLOC
      · simp [h0, h1, heap_inst_logf_eq, ih, lineDelta, opFieldsPiece, HEAP_OP_INIT,
          HEAP_OP_MALLOC, HEAP_OP_FREE, HEAP_OP_REALLOC]
      · by_cases h2 : r.operation = HEAP_OP_FREE
        · simp [h0, h1, h2, heap_inst_logf_eq, ih, lineDelta, opFieldsPiece, HEAP_OP_INIT,
            HEAP_OP_MALLOC, HEAP_OP_FREE, HEAP_OP_REALLOC]
        · by_cases h3 : r.operation = HEAP_OP_REALLOC
          · simp [h0, h1, h2, h3, heap_inst_logf_eq, ih, lineDelta, opFieldsPiece, HEAP_OP_INIT,
              HEAP_OP_MALLOC, HEAP_OP_FREE, HEAP_OP_REALLOC]
          · simp [h0, h1, h2, h3, heap_inst_logf_eq, ih, lineDelta, opFieldsPiece]

theorem logOutput_append (a b : List Event) :
    logOutput (a ++ b) = logOutput a ++ logOutput b := by
  induction a with
  | nil => simp [logOutput]
  | cons e es ih => cases e <;> simp [logOutput, ih, String.append_assoc]

theorem stdoutOutput_append (a b : List Event) :
    stdoutOutput (a ++ b) = stdoutOutput a ++ stdoutOutput b := by
  induction a with
  | nil => simp [stdoutOutput]
  | cons e es ih => cases e <;> simp [stdoutOutput, ih, String.append_assoc]

theorem logOutput_logfDelta (cfg : Cfg) (h : cfg.debugLog = true) (lg : Option Nat)
    (msg : String) : logOutput (logfDelta cfg lg msg) = trunc255 msg := by
  cases lg <;> simp [logfDelta, h, logOutput]

theorem logOutput_lockDelta (o : Option Nat) : logOutput (lockDelta o) = "" := by
  cases o <;> simp [lockDelta, logOutput]

theorem logOutput_unlockDelta (o : Option Nat) : logOutput (unlockDelta o) = "" := by
  cases o <;> simp [unlockDelta, logOutput]

theorem opFieldsPiece_length_le (r : Record) (t : String) (h : opFieldsPiece r = some t) :
    t.length ≤ 255 := by
  have a1 := fmtNat_length_le 16 r.arg1
  have a2 := fmtNat_length_le 10 r.arg2
  have a2h := fmtNat_length_le 16 r.arg2
  have a3 := fmtNat_length_le 16 r.arg3
  have a1d := fmtNat_length_le 10 r.arg1
  have l1 : (",HEAP_BASE:0x" : String).length = 13 := by decide
  have l2 : (",HEAP_SIZE:" : String).length = 11 := by decide
  have l3 : (",FLAGS:0x" : String).length = 9 := by decide
  have l4 : (",SIZE:" : String).length = 6 := by decide
  have l5 : (",PTR:0x" : String).length = 7 := by decide
  have l6 : (",OLD_PTR:0x" : String).length = 11 := by decide
  have l7 : (",NEW_PTR:0x" : String).length = 11 := by decide
  unfold opFieldsPiece at h
  split_ifs at h <;> rw [Option.some.injEq] at h <;> subst h <;>
    simp only [String.length_append, fmtHex, fmtDec] <;> omega

theorem trunc255_newline : trunc255 "\n" = "\n" := by decide

theorem logOutput_lineDelta (cfg : Cfg) (h : cfg.debugLog = true) (lg : Option Nat)
    (i : Nat) (r : Record) :
    logOutput (lineDelta cfg lg i r) = renderRecordLine i r := by
  have hpre : trunc255 ("RECORD:" ++ fmtDec i ++ ",OP:" ++ fmtDec r.operation ++ ",TIME:" ++
      fmtDec r.timestamp_us) =
      "RECORD:" ++ fmtDec i ++ ",OP:" ++ fmtDec r.operation ++ ",TIME:" ++
      fmtDec r.timestamp_us := by
    apply trunc255_eq_of_le
    have a1 := fmtNat_length_le 10 i
    have a2 := fmtNat_length_le 10 r.operation
    have a3 := fmtNat_length_le 10 r.timestamp_us
    have l1 : ("RECORD:" : String).length = 7 := by decide
    have l2 : (",OP:" : String).length = 4 := by decide
    have l3 : (",TIME:" : String).length = 6 := by decide
    simp only [String.length_append, fmtDec]
    omega
  unfold lineDelta renderRecordLine
  rw [logOutput_append, logOutput_append, logOutput_logfDelta cfg h,
    logOutput_logfDelta cfg h, hpre, trunc255_newline]
  cases heq : opFieldsPiece r with
  | none => simp [logOutput]
  | some t =>
    rw [logOutput_logfDelta cfg h, trunc255_eq_of_le t (opFieldsPiece_length_le r t heq)]
    simp

theorem logOutput_traceDelta (cfg : Cfg) (h : cfg.debugLog = true) (lg : Option Nat) :
    ∀ (rs : List Record) (i : Nat), logOutput (traceDelta cfg lg i rs) = renderLines i rs := by
  intro rs
  induction rs with
  | nil => intro i; simp [traceDelta, renderLines, logOutput]
  | cons r rest ih =>
    intro i
    simp only [traceDelta, renderLines, logOutput_append, logOutput_lineDelta cfg h, ih]

theorem length_encodeRecords (rs : List Record) :
    (encodeRecords rs).length = rs.length * recordSize := by
  induction rs with
  | nil => simp [encodeRecords]
  | cons r rest ih =>
    simp only [encodeRecords, List.length_append, length_encodeRecord, ih, List.length_cons]
    ring

/-- Shape of a flush when the stream port is unavailable: no port traffic,
the unavailable notice, then the bracketed text block, then reset. -/
theorem flush_no_port (cfg : Cfg) (s : St) (hne : ¬s.heap_buffer.length = 0)
    (hav : s.streamport_available = false) :
    flush_buffer_to_transport cfg s =
      { s with heap_buffer := [],
               events := s.events ++ (logfDelta cfg s.hooks.log unavailMsg ++
                 (logfDelta cfg s.hooks.log startMarker ++
                   (traceDelta cfg s.hooks.log 0 s.heap_buffer ++
                     logfDelta cfg s.hooks.log endMarker))) } := by
  unfold flush_buffer_to_transport
  rw [if_neg hne]
  simp only [hav, Bool.false_eq_true, if_false, heap_inst_logf_eq, emitTraceLines_eq,
    List.append_assoc]

/-- Shape of a flush when the stream port is available but the write fails
(negative result or short count): write event, short-write notice, port
flush, fallback notice, bracketed text block, reset. -/
theorem flush_port_fail (cfg : Cfg) (s : St) (hne : ¬s.heap_buffer.length = 0)
    (hav : s.streamport_available = true)
    (hw : cfg.port.writeFn s.portAccum (encodeRecords s.heap_buffer) < 0 ∨
      cfg.port.writeFn s.portAccum (encodeRecords s.heap_buffer) ≠
        ((s.heap_buffer.length * recordSize : Nat) : Int)) :
    flush_buffer_to_transport cfg s =
      { s with heap_buffer := [],
               portAccum :=
                 if 0 ≤ cfg.port.writeFn s.portAccum (encodeRecords s.heap_buffer) then
                   s.portAccum ++ (encodeRecords s.heap_buffer).take
                     (cfg.port.writeFn s.portAccum (encodeRecords s.heap_buffer)).toNat
                 else s.portAccum,
               events := s.events ++
                 ([.portWrite (encodeRecords s.heap_buffer)
                     (cfg.port.writeFn s.portAccum (encodeRecords s.heap_buffer))] ++
                   (logfDelta cfg s.hooks.log
                       (shortMsg (cfg.port.writeFn s.portAccum (encodeRecords s.heap_buffer))
                         (s.heap_buffer.length * recordSize)) ++
                     ([.portFlush] ++
                       (logfDelta cfg s.hooks.log fallbackMsg ++
                         (logfDelta cfg s.hooks.log startMarker ++
                           (traceDelta cfg s.hooks.log 0 s.heap_buffer ++
                             logfDelta cfg s.hooks.log endMarker)))))) } := by
  have hwa : (decide (0 ≤ cfg.port.writeFn s.portAccum (encodeRecords s.heap_buffer)) &&
      decide (cfg.port.writeFn s.portAccum (encodeRecords s.heap_buffer) =
        ((s.heap_buffer.length * recordSize : Nat) : Int))) = false := by
    rcases hw with hlt | hne'
    · have hn : ¬(0 ≤ cfg.port.writeFn s.portAccum (encodeRecords s.heap_buffer)) := by omega
      rw [decide_eq_false hn, Bool.false_and]
    · rw [decide_eq_false hne', Bool.and_false]
  unfold flush_buffer_to_transport
  rw [if_neg hne]
  simp only [hav, if_true, portWriteStep, hwa, Bool.false_eq_true, if_false, emit,
    heap_inst_logf_eq, emitTraceLines_eq, List.append_assoc]

/-- Shape of a flush when the stream port accepts the full byte image: write
event and port flush only, no text fallback, reset. -/
theorem flush_port_success (cfg : Cfg) (s : St) (hne : ¬s.heap_buffer.length = 0)
    (hav : s.streamport_available = true)
    (hw : cfg.port.writeFn s.portAccum (encodeRecords s.heap_buffer) =
      ((s.heap_buffer.length * recordSize : Nat) : Int)) :
    flush_buffer_to_transport cfg s =
      { s with heap_buffer := [],
               portAccum := s.portAccum ++ encodeRecords s.heap_buffer,
               events := s.events ++
                 ([.portWrite (encodeRecords s.heap_buffer)
                     (cfg.port.writeFn s.portAccum (encodeRecords s.heap_buffer))] ++
                   [.portFlush]) } := by
  have h0 : 0 ≤ cfg.port.writeFn s.portAccum (encodeRecords s.heap_buffer) := by
    rw [hw]; exact Int.ofNat_nonneg _
  have htoNat : (((s.heap_buffer.length * recordSize : Nat) : Int)).toNat =
      s.heap_buffer.length * recordSize := by
    generalize s.heap_buffer.length * recordSize = n
    omega
  have htake : (encodeRecords s.heap_buffer).take
      (cfg.port.writeFn s.portAccum (encodeRecords s.heap_buffer)).toNat =
      encodeRecords s.heap_buffer := by
    apply List.take_of_length_le
    rw [hw, htoNat, length_encodeRecords]
  have hwa : (decide (0 ≤ cfg.port.writeFn s.portAccum (encodeRecords s.heap_buffer)) &&
      decide (cfg.port.writeFn s.portAccum (encodeRecords s.heap_buffer) =
        ((s.heap_buffer.length * recordSize : Nat) : Int))) = true := by
    rw [decide_eq_true h0, decide_eq_true hw, Bool.and_self]
  unfold flush_buffer_to_transport
  rw [if_neg hne]
  simp only [hav, if_true, portWriteStep, hwa, if_true, emit, htake, List.append_assoc]
  rw [if_pos h0]

theorem trunc255_unavailMsg : trunc255 unavailMsg = unavailMsg := by decide

theorem trunc255_fallbackMsg : trunc255 fallbackMsg = fallbackMsg := by decide

theorem trunc255_startMarker : trunc255 startMarker = startMarker := by decide

theorem trunc255_endMarker : trunc255 endMarker = endMarker := by decide

theorem trunc255_shortMsg (bw : Int) (expected : Nat) :
    trunc255 (shortMsg bw expected) = shortMsg bw expected := by
  apply trunc255_eq_of_le
  unfold shortMsg
  have a1 := fmtInt_length_le bw
  have a2 := fmtNat_length_le 10 expected
  have l1 : ("[HEAP_TRACKER] Streamport write short (" : String).length ≤ 40 := by decide
  have l2 : ("/" : String).length ≤ 1 := by decide
  have l3 : (" bytes)\n" : String).length ≤ 8 := by decide
  simp only [String.length_append, fmtDec]
  omega

/-- C1: For every flush of a non-empty buffer where the transport is absent,
or its write returns a negative value, or it returns fewer bytes than
`count * record_size`, the core renders every buffered record as a structured
text line through the log hook, bracketed by the `--- HEAP_TRACE_START ---`
and `--- HEAP_TRACE_END ---` marker lines, and the buffer count is reset to 0
afterwards regardless of the failure.  (Stated under the default build with
debug logging enabled; the emitted log text is exactly the diagnostic notice
followed by the bracketed block of per-record lines.) -/
theorem flush_failure_renders_text_and_resets (cfg : Cfg) (s : St)
    (hdbg : cfg.debugLog = true)
    (hne : s.heap_buffer ≠ [])
    (hfail : s.streamport_available = false ∨
      cfg.port.writeFn s.portAccum (encodeRecords s.heap_buffer) < 0 ∨
      cfg.port.writeFn s.portAccum (encodeRecords s.heap_buffer) ≠
        ((s.heap_buffer.length * recordSize : Nat) : Int)) :
    heap_inst_get_buffer_count (flush_buffer_to_transport cfg s) = 0 ∧
    logOutput ((flush_buffer_to_transport cfg s).events.drop s.events.length) =
      noticeFor cfg s ++ renderedTrace s.heap_buffer := by
  have hne0 : ¬s.heap_buffer.length = 0 := by
    simpa [List.length_eq_zero] using hne
  cases hav : s.streamport_available with
  | false =>
    rw [flush_no_port cfg s hne0 hav]
    refine ⟨rfl, ?_⟩
    rw [List.drop_left]
    simp only [logOutput_append, logOutput_logfDelta cfg hdbg,
      logOutput_traceDelta cfg hdbg, trunc255_unavailMsg, trunc255_startMarker,
      trunc255_endMarker, noticeFor, renderedTrace, hav, Bool.false_eq_true, if_false,
      String.append_assoc]
  | true =>
    have hw : cfg.port.writeFn s.portAccum (encodeRecords s.heap_buffer) < 0 ∨
        cfg.port.writeFn s.portAccum (encodeRecords s.heap_buffer) ≠
          ((s.heap_buffer.length * recordSize : Nat) : Int) := by
      rcases hfail with h | h | h
      · rw [hav] at h; exact absurd h (by simp)
      · exact Or.inl h
      · exact Or.inr h
    rw [flush_port_fail cfg s hne0 hav hw]
    refine ⟨rfl, ?_⟩
    rw [List.drop_left]
    simp only [logOutput_append, logOutput, logOutput_logfDelta cfg hdbg,
      logOutput_traceDelta cfg hdbg, trunc255_shortMsg, trunc255_fallbackMsg,
      trunc255_startMarker, trunc255_endMarker, noticeFor, renderedTrace, hav, if_true,
      String.append_assoc, List.append_eq, List.nil_append, List.append_nil]

/-- Closed instance of C1: flushing a one-record buffer with no transport
available produces exactly the bracketed text block and resets the count. -/
theorem flush_failure_renders_text_and_resets_witness :
    heap_inst_get_buffer_count (flush_buffer_to_transport
      (⟨true, 4096, false, 0, 0, ⟨-1, fun _ _ => -1⟩⟩ : Cfg)
      (⟨[⟨1, 0, 0, 100, 16, 4096, 0⟩], true, false, emptyHooks, 2, [], []⟩ : St)) = 0 := by
  exact (flush_failure_renders_text_and_resets _ _ rfl (by simp) (Or.inl rfl)).1

theorem stdoutOutput_eq_logOutput_logfDelta (cfg : Cfg) (msg : String) :
    stdoutOutput (logfDelta cfg none msg) = logOutput (logfDelta cfg none msg) := by
  cases hd : cfg.debugLog <;> simp [logfDelta, hd, stdoutOutput, logOutput]

theorem stdoutOutput_eq_logOutput_traceDelta (cfg : Cfg) :
    ∀ (rs : List Record) (i : Nat),
      stdoutOutput (traceDelta cfg none i rs) = logOutput (traceDelta cfg none i rs) := by
  intro rs
  induction rs with
  | nil => intro i; simp [traceDelta, stdoutOutput, logOutput]
  | cons r rest ih =>
    intro i
    simp only [traceDelta, stdoutOutput_append, logOutput_append, ih]
    congr 1
    unfold lineDelta
    cases heq : opFieldsPiece r <;>
      simp [stdoutOutput_append, logOutput_append, stdoutOutput_eq_logOutput_logfDelta]

/-- C8: When no transport is available and no log hook is registered,
flushing a non-empty buffer still sends the trace and diagnostic text to the
default stdout sink — every buffered record reaches an observable sink.
(Under the default build with debug logging enabled.) -/
theorem flush_no_transport_no_hook_writes_stdout (cfg : Cfg) (s : St)
    (hdbg : cfg.debugLog = true)
    (hlog : s.hooks.log = none)
    (hav : s.streamport_available = false)
    (hne : s.heap_buffer ≠ []) :
    heap_inst_get_buffer_count (flush_buffer_to_transport cfg s) = 0 ∧
    stdoutOutput ((flush_buffer_to_transport cfg s).events.drop s.events.length) =
      unavailMsg ++ renderedTrace s.heap_buffer := by
  have hne0 : ¬s.heap_buffer.length = 0 := by
    simpa [List.length_eq_zero] using hne
  rw [flush_no_port cfg s hne0 hav]
  refine ⟨rfl, ?_⟩
  rw [List.drop_left]
  simp only [hlog, stdoutOutput_append, stdoutOutput_eq_logOutput_logfDelta,
    stdoutOutput_eq_logOutput_traceDelta, logOutput_logfDelta cfg hdbg,
    logOutput_traceDelta cfg hdbg, trunc255_unavailMsg, trunc255_startMarker,
    trunc255_endMarker, renderedTrace, String.append_assoc]

/-- Closed instance of C8: with no transport and no hooks, flushing one
buffered record leaves count 0 (and the text block went to stdout). -/
theorem flush_no_transport_no_hook_writes_stdout_witness :
    heap_inst_get_buffer_count (flush_buffer_to_transport
      (⟨true, 4096, false, 0, 0, ⟨-1, fun _ _ => -1⟩⟩ : Cfg)
      (⟨[⟨2, 0, 0, 7, 64, 0, 0⟩], true, false, emptyHooks, 1, [], []⟩ : St)) = 0 := by
  exact (flush_no_transport_no_hook_writes_stdout _ _ rfl rfl rfl (by simp)).1

theorem logfDelta_debug_off (cfg : Cfg) (h : cfg.debugLog = false) (lg : Option Nat)
    (msg : String) : logfDelta cfg lg msg = [] := by
  simp [logfDelta, h]

theorem traceDelta_debug_off (cfg : Cfg) (h : cfg.debugLog = false) (lg : Option Nat) :
    ∀ (rs : List Record) (i : Nat), traceDelta cfg lg i rs = [] := by
  intro rs
  induction rs with
  | nil => intro i; simp [traceDelta]
  | cons r rest ih =>
    intro i
    simp only [traceDelta, ih, List.append_nil, lineDelta, logfDelta_debug_off cfg h]
    cases heq : opFieldsPiece r <;> simp [logfDelta_debug_off cfg h]

/-- C9: When the build-time switch `HEAPINST_CFG_DEBUG_LOG` is 0,
`heap_inst_logf` expands to a no-op, so a flush whose transport write fails
(or with no transport available) emits no text fallback at all: the buffered
records are discarded unlogged while the buffer count is still reset to 0. -/
theorem debug_off_flush_discards_unlogged (cfg : Cfg) (s : St)
    (hdbg : cfg.debugLog = false)
    (hne : s.heap_buffer ≠ [])
    (hfail : s.streamport_available = false ∨
      cfg.port.writeFn s.portAccum (encodeRecords s.heap_buffer) < 0 ∨
      cfg.port.writeFn s.portAccum (encodeRecords s.heap_buffer) ≠
        ((s.heap_buffer.length * recordSize : Nat) : Int)) :
    heap_inst_get_buffer_count (flush_buffer_to_transport cfg s) = 0 ∧
    logOutput ((flush_buffer_to_transport cfg s).events.drop s.events.length) = "" ∧
    stdoutOutput ((flush_buffer_to_transport cfg s).events.drop s.events.length) = "" := by
  have hne0 : ¬s.heap_buffer.length = 0 := by
    simpa [List.length_eq_zero] using hne
  cases hav : s.streamport_available with
  | false =>
    rw [flush_no_port cfg s hne0 hav]
    refine ⟨rfl, ?_, ?_⟩ <;>
      simp [List.drop_left, logfDelta_debug_off cfg hdbg, traceDelta_debug_off cfg hdbg,
        logOutput, stdoutOutput]
  | true =>
    have hw : cfg.port.writeFn s.portAccum (encodeRecords s.heap_buffer) < 0 ∨
        cfg.port.writeFn s.portAccum (encodeRecords s.heap_buffer) ≠
          ((s.heap_buffer.length * recordSize : Nat) : Int) := by
      rcases hfail with h | h | h
      · rw [hav] at h; exact absurd h (by simp)
      · exact Or.inl h
      · exact Or.inr h
    rw [flush_port_fail cfg s hne0 hav hw]
    refine ⟨rfl, ?_, ?_⟩ <;>
      simp [List.drop_left, logfDelta_debug_off cfg hdbg, traceDelta_debug_off cfg hdbg,
        logOutput, stdoutOutput]

/-- Closed instance of C9: with debug logging compiled out and a failing
transport, a flush of one buffered record resets the count to 0. -/
theorem debug_off_flush_discards_unlogged_witness :
    heap_inst_get_buffer_count (flush_buffer_to_transport
      (⟨false, 4096, false, 0, 0, ⟨0, fun _ _ => -1⟩⟩ : Cfg)
      (⟨[⟨1, 0, 0, 5, 8, 32, 0⟩], true, true, emptyHooks, 1, [], []⟩ : St)) = 0 := by
  exact (debug_off_flush_discards_unlogged _ _ rfl (by simp) (Or.inr (Or.inl (by decide)))).1

/-- C10: Whenever the stream port initialized successfully, every flush of a
non-empty buffer invokes the port's flush operation after the write attempt,
whether or not the write succeeded: the emitted event sequence starts with
the write and contains `portFlush` strictly after it. -/
theorem flush_invokes_port_flush_after_write (cfg : Cfg) (s : St)
    (hav : s.streamport_available = true)
    (hne : s.heap_buffer ≠ []) :
    ((flush_buffer_to_transport cfg s).events.drop s.events.length).head? =
      some (.portWrite (encodeRecords s.heap_buffer)
        (cfg.port.writeFn s.portAccum (encodeRecords s.heap_buffer))) ∧
    Event.portFlush ∈ ((flush_buffer_to_transport cfg s).events.drop s.events.length).tail := by
  have hne0 : ¬s.heap_buffer.length = 0 := by
    simpa [List.length_eq_zero] using hne
  by_cases hsucc : cfg.port.writeFn s.portAccum (encodeRecords s.heap_buffer) =
      ((s.heap_buffer.length * recordSize : Nat) : Int)
  · rw [flush_port_success cfg s hne0 hav hsucc]
    simp [List.drop_left]
  · rw [flush_port_fail cfg s hne0 hav (Or.inr hsucc)]
    simp [List.drop_left]

/-- Closed instance of C10: with an available port whose write fails, a
flush of a one-record buffer still emits the port-flush call after the
write event. -/
theorem flush_invokes_port_flush_after_write_witness :
    Event.portFlush ∈ ((flush_buffer_to_transport
      (⟨true, 4096, false, 0, 0, ⟨0, fun _ _ => -1⟩⟩ : Cfg)
      (⟨[⟨3, 0, 0, 9, 1, 2, 3⟩], true, true, emptyHooks, 1, [], []⟩ : St)).events.drop 0).tail := by
  exact (flush_invokes_port_flush_after_write (⟨true, 4096, false, 0, 0, ⟨0, fun _ _ => -1⟩⟩ : Cfg)
    (⟨[⟨3, 0, 0, 9, 1, 2, 3⟩], true, true, emptyHooks, 1, [], []⟩ : St) rfl (by simp)).2

theorem flush_preserves (cfg : Cfg) (s : St) :
    (flush_buffer_to_transport cfg s).tracker_initialized = s.tracker_initialized ∧
    (flush_buffer_to_transport cfg s).streamport_available = s.streamport_available ∧
    (flush_buffer_to_transport cfg s).hooks = s.hooks ∧
    (flush_buffer_to_transport cfg s).tick = s.tick ∧
    (flush_buffer_to_transport cfg s).heap_buffer = [] := by
  by_cases h0 : s.heap_buffer.length = 0
  · unfold flush_buffer_to_transport
    rw [if_pos h0]
    exact ⟨rfl, rfl, rfl, rfl, List.length_eq_zero.mp h0⟩
  · cases hav : s.streamport_available with
    | false =>
      rw [flush_no_port cfg s h0 hav]
      exact ⟨rfl, hav, rfl, rfl, rfl⟩
    | true =>
      by_cases hsucc : cfg.port.writeFn s.portAccum (encodeRecords s.heap_buffer) =
          ((s.heap_buffer.length * recordSize : Nat) : Int)
      · rw [flush_port_success cfg s h0 hav hsucc]
        exact ⟨rfl, hav, rfl, rfl, rfl⟩
      · rw [flush_port_fail cfg s h0 hav (Or.inr hsucc)]
        exact ⟨rfl, hav, rfl, rfl, rfl⟩

theorem flush_tracker (cfg : Cfg) (s : St) :
    (flush_buffer_to_transport cfg s).tracker_initialized = s.tracker_initialized :=
  (flush_preserves cfg s).1

theorem flush_stream (cfg : Cfg) (s : St) :
    (flush_buffer_to_transport cfg s).streamport_available = s.streamport_available :=
  (flush_preserves cfg s).2.1

theorem flush_hooks (cfg : Cfg) (s : St) :
    (flush_buffer_to_transport cfg s).hooks = s.hooks :=
  (flush_preserves cfg s).2.2.1

theorem flush_tick (cfg : Cfg) (s : St) :
    (flush_buffer_to_transport cfg s).tick = s.tick :=
  (flush_preserves cfg s).2.2.2.1

theorem flush_buffer (cfg : Cfg) (s : St) :
    (flush_buffer_to_transport cfg s).heap_buffer = [] :=
  (flush_preserves cfg s).2.2.2.2

theorem log_heap_operation_preserves (cfg : Cfg) (r : Record) (s : St) :
    (log_heap_operation cfg r s).tracker_initialized = s.tracker_initialized ∧
    (log_heap_operation cfg r s).streamport_available = s.streamport_available ∧
    (log_heap_operation cfg r s).hooks = s.hooks ∧
    (log_heap_operation cfg r s).tick = s.tick ∧
    (log_heap_operation cfg r s).heap_buffer =
      (if bufferCapacity cfg ≤ s.heap_buffer.length then [] else s.heap_buffer) ++ [r] := by
  unfold log_heap_operation
  simp only [heapInst_lock_eq, heapInst_unlock_eq]
  by_cases hcap : bufferCapacity cfg ≤ s.heap_buffer.length
  · simp [hcap, flush_tracker, flush_stream, flush_hooks, flush_tick, flush_buffer]
  · simp [hcap]

theorem log_heap_operation_buffer (cfg : Cfg) (r : Record) (s : St) :
    (log_heap_operation cfg r s).heap_buffer =
      (if bufferCapacity cfg ≤ s.heap_buffer.length then [] else s.heap_buffer) ++ [r] :=
  (log_heap_operation_preserves cfg r s).2.2.2.2

/-- Number of Init records in a buffer. -/
def countInitRecords (rs : List Record) : Nat :=
  (rs.filter (fun r => r.operation = HEAP_OP_INIT)).length

theorem log_heap_operation_tracker (cfg : Cfg) (r : Record) (s : St) :
    (log_heap_operation cfg r s).tracker_initialized = s.tracker_initialized :=
  (log_heap_operation_preserves cfg r s).1

/-- Shape of `log_heap_operation` when the buffer is not full: lock event,
append, unlock event. -/
theorem log_heap_operation_no_flush (cfg : Cfg) (r : Record) (s : St)
    (h : ¬bufferCapacity cfg ≤ s.heap_buffer.length) :
    log_heap_operation cfg r s =
      { s with heap_buffer := s.heap_buffer ++ [r],
               events := s.events ++ (lockDelta s.hooks.lock ++ unlockDelta s.hooks.unlock) } := by
  unfold log_heap_operation
  simp only [heapInst_lock_eq, heapInst_unlock_eq]
  simp [h, List.append_assoc]

/-- The Init record `heap_inst_init` builds, given the clock value. -/
def initRecordFor (cfg : Cfg) (hi : Option HeapInfo) (ts : Nat) : Record :=
  { operation := HEAP_OP_INIT, timestamp_us := ts,
    arg1 := (chooseBounds cfg hi).1, arg2 := (chooseBounds cfg hi).2.1,
    arg3 := (chooseBounds cfg hi).2.2, padding := 0, reserved := 0 }

/-- Core effect of the first `heap_inst_init` call on an uninitialized
tracer with a positive buffer capacity. -/
theorem init_uninit_core (cfg : Cfg) (hi : Option HeapInfo) (s : St)
    (h : s.tracker_initialized = false) (hcap : 0 < bufferCapacity cfg) :
    (heap_inst_init cfg hi s).tracker_initialized = true ∧
    (heap_inst_init cfg hi s).streamport_available = decide (cfg.port.initRes = 0) ∧
    (heap_inst_init cfg hi s).hooks = s.hooks ∧
    (heap_inst_init cfg hi s).tick = tsTick s.hooks.timestamp_us s.tick ∧
    (heap_inst_init cfg hi s).portAccum = s.portAccum ∧
    (heap_inst_init cfg hi s).heap_buffer =
      [initRecordFor cfg hi (tsVal s.hooks.timestamp_us s.tick)] := by
  have hnocap : ¬(bufferCapacity cfg ≤ 0) := by omega
  unfold heap_inst_init
  simp only [h, Bool.false_eq_true, if_false, emit, heap_inst_timestamp_us_eq,
    heap_inst_logf_eq]
  split_ifs <;>
    simp [log_heap_operation_no_flush, hnocap, initRecordFor]

/-- Every public API call keeps the initialized flag latched once it is true. -/
theorem runCall_keeps_tracker (cfg : Cfg) (c : ApiCall) (s : St)
    (h : s.tracker_initialized = true) : (runCall cfg c s).tracker_initialized = true := by
  cases c with
  | initCall hi =>
    simp only [runCall]
    unfold heap_inst_init
    simp [h]
  | mallocCall a b =>
    simp only [runCall]
    unfold heap_inst_record_malloc
    simp only [h, if_true, heap_inst_timestamp_us_eq, heap_inst_logf_eq]
    simp [log_heap_operation_tracker, h]
  | freeCall p =>
    simp only [runCall]
    unfold heap_inst_record_free
    simp only [h, if_true, heap_inst_timestamp_us_eq, heap_inst_logf_eq]
    split_ifs <;> simp [log_heap_operation_tracker, h]
  | reallocCall o n r =>
    simp only [runCall]
    unfold heap_inst_record_realloc
    simp only [h, if_true, heap_inst_timestamp_us_eq, heap_inst_logf_eq]
    split_ifs <;> simp [log_heap_operation_tracker, h]
  | flushCall =>
    simp only [runCall]
    unfold heap_inst_flush
    split_ifs <;> simp [flush_tracker, h]
  | registerCall hk =>
    cases hk <;> simp [runCall, heap_inst_register_platform_hooks, h]

/-- C4: init is idempotent: a call on an already-initialized tracer is a
silent no-op that changes no state; once set, the initialized flag survives
every later API call; and calling init twice from the fresh state yields
exactly one Init record in the buffer (the second call changes nothing). -/
theorem init_idempotent :
    (∀ (cfg : Cfg) (hi : Option HeapInfo) (s : St),
      s.tracker_initialized = true → heap_inst_init cfg hi s = s) ∧
    (∀ (cfg : Cfg) (c : ApiCall) (s : St),
      s.tracker_initialized = true → (runCall cfg c s).tracker_initialized = true) ∧
    (∀ (cfg : Cfg) (hi1 hi2 : Option HeapInfo), 0 < bufferCapacity cfg →
      heap_inst_init cfg hi2 (heap_inst_init cfg hi1 freshSt) =
        heap_inst_init cfg hi1 freshSt ∧
      countInitRecords ((heap_inst_init cfg hi2 (heap_inst_init cfg hi1 freshSt)).heap_buffer)
        = 1) := by
  have hnoop : ∀ (cfg : Cfg) (hi : Option HeapInfo) (s : St),
      s.tracker_initialized = true → heap_inst_init cfg hi s = s := by
    intro cfg hi s h
    unfold heap_inst_init
    simp [h]
  refine ⟨hnoop, runCall_keeps_tracker, ?_⟩
  intro cfg hi1 hi2 hcap
  have hfirst := init_uninit_core cfg hi1 freshSt rfl hcap
  have hsecond := hnoop cfg hi2 _ hfirst.1
  refine ⟨hsecond, ?_⟩
  rw [hsecond, hfirst.2.2.2.2.2]
  simp [countInitRecords, initRecordFor, HEAP_OP_INIT]

/-- Closed instance of C4: two inits from the fresh state leave exactly one
Init record, and the second call is a no-op. -/
theorem init_idempotent_witness :
    countInitRecords ((heap_inst_init (⟨true, 4096, false, 0, 0, ⟨0, fun _ _ => 0⟩⟩ : Cfg) none
      (heap_inst_init (⟨true, 4096, false, 0, 0, ⟨0, fun _ _ => 0⟩⟩ : Cfg) none
        freshSt)).heap_buffer) = 1 := by
  exact (init_idempotent.2.2 (⟨true, 4096, false, 0, 0, ⟨0, fun _ _ => 0⟩⟩ : Cfg) none none
    (by decide)).2

/-- C7: `register_hooks` fully replaces the active hook set every time:
a given hooks value becomes the whole active set, NULL clears all four
slots, registration touches nothing else and never fails, and subsequent
timestamp/log/lock/unlock calls use exactly the registered callback or the
safe default (timestamp 0, log to the default stdout sink, lock/unlock
no-ops). -/
theorem register_hooks_replace_all :
    (∀ (h : Hooks) (s : St), (heap_inst_register_platform_hooks (some h) s).hooks = h) ∧
    (∀ s : St, (heap_inst_register_platform_hooks none s).hooks = emptyHooks) ∧
    (∀ (hk : Option Hooks) (s : St),
      (heap_inst_register_platform_hooks hk s).heap_buffer = s.heap_buffer ∧
      (heap_inst_register_platform_hooks hk s).tracker_initialized = s.tracker_initialized ∧
      (heap_inst_register_platform_hooks hk s).streamport_available =
        s.streamport_available ∧
      (heap_inst_register_platform_hooks hk s).tick = s.tick ∧
      (heap_inst_register_platform_hooks hk s).portAccum = s.portAccum ∧
      (heap_inst_register_platform_hooks hk s).events = s.events) ∧
    (∀ (s : St) (f : Nat → Nat), s.hooks.timestamp_us = some f →
      heap_inst_timestamp_us s = (f s.tick % 2^64, { s with tick := s.tick + 1 })) ∧
    (∀ s : St, s.hooks.timestamp_us = none → heap_inst_timestamp_us s = (0, s)) ∧
    (∀ (cfg : Cfg) (msg : String) (s : St) (id : Nat), cfg.debugLog = true →
      s.hooks.log = some id →
      heap_inst_logf cfg msg s =
        { s with events := s.events ++ [.logHook id (trunc255 msg)] }) ∧
    (∀ (cfg : Cfg) (msg : String) (s : St), cfg.debugLog = true → s.hooks.log = none →
      heap_inst_logf cfg msg s =
        { s with events := s.events ++ [.logStdout (trunc255 msg)] }) ∧
    (∀ (s : St) (id : Nat), s.hooks.lock = some id →
      heapInst_lock s = { s with events := s.events ++ [.lockEv id] }) ∧
    (∀ s : St, s.hooks.lock = none → heapInst_lock s = s) ∧
    (∀ (s : St) (id : Nat), s.hooks.unlock = some id →
      heapInst_unlock s = { s with events := s.events ++ [.unlockEv id] }) ∧
    (∀ s : St, s.hooks.unlock = none → heapInst_unlock s = s) := by
  refine ⟨?_, ?_, ?_, ?_, ?_, ?_, ?_, ?_, ?_, ?_, ?_⟩
  · intro h s; rfl
  · intro s; rfl
  · intro hk s; cases hk <;> exact ⟨rfl, rfl, rfl, rfl, rfl, rfl⟩
  · intro s f hf; simp [heap_inst_timestamp_us, hf]
  · intro s hf; simp [heap_inst_timestamp_us, hf]
  · intro cfg msg s id hd hl; simp [heap_inst_logf, hd, hl, emit]
  · intro cfg msg s hd hl; simp [heap_inst_logf, hd, hl, emit]
  · intro s id hl; simp [heapInst_lock, hl, emit]
  · intro s hl; simp [heapInst_lock, hl]
  · intro s id hl; simp [heapInst_unlock, hl, emit]
  · intro s hl; simp [heapInst_unlock, hl]

/-- Closed instance of C7: a registered lock hook is invoked on lock, and a
registration fully replaces the hook set. -/
theorem register_hooks_replace_all_witness :
    heapInst_lock (⟨[], false, false, ⟨none, none, some 2, none⟩, 0, [], []⟩ : St) =
      { (⟨[], false, false, ⟨none, none, some 2, none⟩, 0, [], []⟩ : St) with
          events := ([] : List Event) ++ [.lockEv 2] } ∧
    (heap_inst_register_platform_hooks none
      (⟨[], false, false, ⟨none, none, some 2, none⟩, 0, [], []⟩ : St)).hooks = emptyHooks := by
  exact ⟨register_hooks_replace_all.2.2.2.2.2.2.2.1
    (⟨[], false, false, ⟨none, none, some 2, none⟩, 0, [], []⟩ : St) 2 rfl,
    register_hooks_replace_all.2.1 _⟩

/-- C6: On the first init call the heap bounds of the Init record come from
the explicit hint when it is non-degenerate (valid flag set); otherwise from
platform auto-detection, with the valid flag set exactly when both detected
values are non-zero; when detection is unavailable base, size and flags are
all 0. -/
theorem init_heap_bounds_selection (cfg : Cfg) (hi : Option HeapInfo) (s : St)
    (h : s.tracker_initialized = false) (hcap : 0 < bufferCapacity cfg) :
    ∃ r : Record, (heap_inst_init cfg hi s).heap_buffer = [r] ∧
      r.operation = HEAP_OP_INIT ∧
      (∀ x : HeapInfo, hi = some x → x.heap_start ≠ 0 → 0 < x.heap_size →
        r.arg1 = x.heap_start % 2^32 ∧ r.arg2 = x.heap_size % 2^32 ∧
        r.arg3 = HEAP_INIT_FLAG_HEAP_INFO_VALID) ∧
      ((hi = none ∨ ∃ x : HeapInfo, hi = some x ∧ (x.heap_start = 0 ∨ x.heap_size = 0)) →
        r.arg1 = (get_auto_detected_heap_info cfg).1 ∧
        r.arg2 = (get_auto_detected_heap_info cfg).2 ∧
        (r.arg3 = HEAP_INIT_FLAG_HEAP_INFO_VALID ↔
          (get_auto_detected_heap_info cfg).1 ≠ 0 ∧
          (get_auto_detected_heap_info cfg).2 ≠ 0) ∧
        (cfg.autoAvail = false → r.arg1 = 0 ∧ r.arg2 = 0 ∧ r.arg3 = 0)) := by
  refine ⟨initRecordFor cfg hi (tsVal s.hooks.timestamp_us s.tick),
    (init_uninit_core cfg hi s h hcap).2.2.2.2.2, rfl, ?_, ?_⟩
  · intro x hx hs hsz
    subst hx
    simp [initRecordFor, chooseBounds, hs, hsz]
  · intro hcase
    have hb : chooseBounds cfg hi = autoBoundsWithFlag cfg := by
      rcases hcase with rfl | ⟨x, rfl, hx⟩
      · rfl
      · simp only [chooseBounds]
        rw [if_neg]
        rintro ⟨h1, h2⟩
        rcases hx with h3 | h3
        · exact h1 h3
        · omega
    refine ⟨?_, ?_, ?_, ?_⟩
    · simp [initRecordFor, hb, autoBoundsWithFlag]
    · simp [initRecordFor, hb, autoBoundsWithFlag]
    · simp only [initRecordFor, hb, autoBoundsWithFlag]
      split_ifs with hnz
      · simpa using hnz
      · simp only [HEAP_INIT_FLAG_HEAP_INFO_VALID]
        constructor
        · intro h01; exact absurd h01 (by decide)
        · intro hc; exact absurd hc hnz
    · intro hava
      simp [initRecordFor, hb, autoBoundsWithFlag, get_auto_detected_heap_info, hava]

/-- Closed instance of C6: with auto-detection unavailable and no hint, the
first init appends exactly one record. -/
theorem init_heap_bounds_selection_witness :
    (heap_inst_init (⟨true, 4096, false, 0, 0, ⟨0, fun _ _ => 0⟩⟩ : Cfg) none
      freshSt).heap_buffer.length = 1 := by
  obtain ⟨r, hr, -⟩ := init_heap_bounds_selection
    (⟨true, 4096, false, 0, 0, ⟨0, fun _ _ => 0⟩⟩ : Cfg) none freshSt rfl (by decide)
  rw [hr]
  rfl

/-- Counterexample to C5 as stated: the record's `sizeof` is not 24 bytes
(ABI alignment of the 64-bit timestamp pads the struct to 32), and 24 would
not divide the 4096-byte default budget evenly anyway. -/
theorem record_size_claim_counterexample :
    ¬(recordSize = 24 ∧ recordSize ∣ 4096 ∧
      heap_inst_get_buffer_capacity (⟨true, 4096, false, 0, 0, ⟨0, fun _ _ => 0⟩⟩ : Cfg) =
        4096 / 24) := by
  intro hc
  exact absurd hc.1 (by decide)

/-- C5 (amended): the record's field content is 24 bytes but its in-memory
and on-wire size (`sizeof`) is 32 bytes; 32 divides the default 4096-byte
budget evenly; the capacity query returns `budget / sizeof = 128`; and 24
does not divide 4096. -/
theorem record_size_and_capacity (r : Record) :
    recordSize = 32 ∧ (encodeRecord r).length = recordSize ∧ recordSize ∣ 4096 ∧
    (∀ cfg : Cfg, cfg.bufferBytes = 4096 →
      heap_inst_get_buffer_capacity cfg = 4096 / recordSize ∧
      heap_inst_get_buffer_capacity cfg = 128) ∧
    ¬(24 ∣ 4096) := by
  refine ⟨rfl, length_encodeRecord r, by decide, ?_, by decide⟩
  intro cfg hb
  constructor <;> simp [heap_inst_get_buffer_capacity, bufferCapacity, hb, recordSize]

/-- Closed instance of the amended C5: the default configuration reports a
capacity of 128 records. -/
theorem record_size_and_capacity_witness :
    heap_inst_get_buffer_capacity (⟨true, 4096, false, 0, 0, ⟨0, fun _ _ => 0⟩⟩ : Cfg) = 128 := by
  exact ((record_size_and_capacity ⟨0, 0, 0, 0, 0, 0, 0⟩).2.2.2.1
    (⟨true, 4096, false, 0, 0, ⟨0, fun _ _ => 0⟩⟩ : Cfg) rfl).2

theorem log_heap_operation_count (cfg : Cfg) (r : Record) (s : St)
    (hcap : 0 < bufferCapacity cfg)
    (_hble : s.heap_buffer.length ≤ bufferCapacity cfg) :
    (log_heap_operation cfg r s).heap_buffer.length ≤ bufferCapacity cfg := by
  rw [log_heap_operation_buffer]
  split_ifs with hfull
  · simpa using hcap
  · simp only [List.length_append, List.length_cons, List.length_nil]
    omega

theorem runCall_count (cfg : Cfg) (c : ApiCall) (s : St)
    (hcap : 0 < bufferCapacity cfg)
    (h : s.heap_buffer.length ≤ bufferCapacity cfg) :
    (runCall cfg c s).heap_buffer.length ≤ bufferCapacity cfg := by
  have hinit : ∀ (hi : Option HeapInfo) (s' : St), s'.heap_buffer.length ≤ bufferCapacity cfg →
      (heap_inst_init cfg hi s').heap_buffer.length ≤ bufferCapacity cfg := by
    intro hi s' h'
    cases hin : s'.tracker_initialized with
    | true =>
      have : heap_inst_init cfg hi s' = s' := by unfold heap_inst_init; simp [hin]
      rw [this]; exact h'
    | false =>
      rw [(init_uninit_core cfg hi s' hin hcap).2.2.2.2.2]
      simpa using hcap
  have hrec : ∀ (op : TrackedOp) (s' : St), s'.heap_buffer.length ≤ bufferCapacity cfg →
      (runTrackedOp cfg op s').heap_buffer.length ≤ bufferCapacity cfg := by
    intro op s' h'
    have hpre : ∀ s'' : St, s''.heap_buffer.length ≤ bufferCapacity cfg →
        ((if s''.tracker_initialized = true then s''
          else heap_inst_init cfg none s'')).heap_buffer.length ≤ bufferCapacity cfg := by
      intro s'' h''
      split_ifs
      · exact h''
      · exact hinit none s'' h''
    cases op with
    | mallocOp a b =>
      unfold runTrackedOp heap_inst_record_malloc
      simp only [heap_inst_timestamp_us_eq, heap_inst_logf_eq]
      exact log_heap_operation_count cfg _ _ hcap (hpre s' h')
    | freeOp p =>
      unfold runTrackedOp heap_inst_record_free
      by_cases hin : s'.tracker_initialized = true
      · simp only [if_pos hin, heap_inst_timestamp_us_eq, heap_inst_logf_eq]
        split_ifs <;> exact log_heap_operation_count cfg _ _ hcap h'
      · simp only [if_neg hin, heap_inst_timestamp_us_eq, heap_inst_logf_eq]
        split_ifs <;> exact log_heap_operation_count cfg _ _ hcap (hinit none s' h')
    | reallocOp o n rr =>
      unfold runTrackedOp heap_inst_record_realloc
      by_cases hin : s'.tracker_initialized = true
      · simp only [if_pos hin, heap_inst_timestamp_us_eq, heap_inst_logf_eq]
        split_ifs <;> exact log_heap_operation_count cfg _ _ hcap h'
      · simp only [if_neg hin, heap_inst_timestamp_us_eq, heap_inst_logf_eq]
        split_ifs <;> exact log_heap_operation_count cfg _ _ hcap (hinit none s' h')
  cases c with
  | initCall hi => exact hinit hi s h
  | mallocCall a b => exact hrec (.mallocOp a b) s h
  | freeCall p => exact hrec (.freeOp p) s h
  | reallocCall o n rr => exact hrec (.reallocOp o n rr) s h
  | flushCall =>
    simp only [runCall]
    unfold heap_inst_flush
    split_ifs
    · rw [flush_buffer]; simp
    · exact h
  | registerCall hk =>
    cases hk <;> exact h

theorem runCalls_count (cfg : Cfg) (hcap : 0 < bufferCapacity cfg) :
    ∀ (calls : List ApiCall) (s : St), s.heap_buffer.length ≤ bufferCapacity cfg →
      (runCalls cfg calls s).heap_buffer.length ≤ bufferCapacity cfg := by
  intro calls
  induction calls with
  | nil => intro s h; exact h
  | cons c cs ih => intro s h; exact ih _ (runCall_count cfg c s hcap h)

/-- C2: Along every API call sequence from the fresh state the buffer count
stays between 0 and the capacity, and when a record arrives while the count
equals the capacity the core drains the whole buffer first and then appends
exactly the triggering record, so no record is dropped or overwritten. -/
theorem buffer_count_bounded (cfg : Cfg) (hcap : 0 < bufferCapacity cfg) :
    (∀ calls : List ApiCall,
      heap_inst_get_buffer_count (runCalls cfg calls freshSt) ≤ bufferCapacity cfg) ∧
    (∀ (r : Record) (s : St), s.heap_buffer.length = bufferCapacity cfg →
      (log_heap_operation cfg r s).heap_buffer = [r] ∧
      (log_heap_operation cfg r s).heap_buffer.length ≤ bufferCapacity cfg) := by
  constructor
  · intro calls
    exact runCalls_count cfg hcap calls freshSt (by simp [freshSt])
  · intro r s hfull
    have h1 : (log_heap_operation cfg r s).heap_buffer = [r] := by
      rw [log_heap_operation_buffer, if_pos (le_of_eq hfull.symm)]
      rfl
    exact ⟨h1, by rw [h1]; simpa using hcap⟩

/-- Closed instance of C2: after init plus one tracked malloc from the fresh
state, the count (2) is within the default capacity (128). -/
theorem buffer_count_bounded_witness :
    heap_inst_get_buffer_count (runCalls (⟨true, 4096, false, 0, 0, ⟨0, fun _ _ => 0⟩⟩ : Cfg)
      [.initCall none, .mallocCall 16 2048] freshSt) ≤
      bufferCapacity (⟨true, 4096, false, 0, 0, ⟨0, fun _ _ => 0⟩⟩ : Cfg) := by
  exact (buffer_count_bounded (⟨true, 4096, false, 0, 0, ⟨0, fun _ _ => 0⟩⟩ : Cfg)
    (by decide)).1 [.initCall none, .mallocCall 16 2048]

theorem encodeRecords_append (a b : List Record) :
    encodeRecords (a ++ b) = encodeRecords a ++ encodeRecords b := by
  induction a with
  | nil => simp [encodeRecords]
  | cons r rest ih => simp [encodeRecords, ih]

theorem decodeRecord_encodeRecord (r : Record) (h : r.WF) :
    decodeRecord (encodeRecord r) = r := by
  obtain ⟨h1, h2, h3, h4, h5, h6, h7⟩ := h
  cases r with
  | mk op pad res ts a1 a2 a3 =>
    simp only at h1 h2 h3 h4 h5 h6 h7
    unfold decodeRecord encodeRecord
    simp only [leBytes, List.replicate, List.cons_append, List.nil_append, List.drop,
      List.take, List.drop_zero, leVal]
    rw [Record.mk.injEq]
    refine ⟨?_, ?_, ?_, ?_, ?_, ?_, ?_⟩ <;> omega

theorem decodeRecordsAux_encode (rs : List Record) (hwf : ∀ r ∈ rs, r.WF) :
    ∀ fuel, rs.length ≤ fuel → decodeRecordsAux fuel (encodeRecords rs) = some rs := by
  induction rs with
  | nil =>
    intro fuel hf
    cases fuel <;> simp [encodeRecords, decodeRecordsAux]
  | cons r rest ih =>
    intro fuel hf
    cases fuel with
    | zero => simp at hf
    | succ f =>
      have hlen32 : (encodeRecord r).length = 32 := length_encodeRecord r
      obtain ⟨x, xs, hx⟩ : ∃ x xs, encodeRecord r = x :: xs := by
        cases hxx : encodeRecord r with
        | nil => rw [hxx] at hlen32; simp at hlen32
        | cons a as => exact ⟨a, as, rfl⟩
      have hxs : xs.length = 31 := by
        have := hlen32
        rw [hx] at this
        simpa using this
      have hsplit : encodeRecords (r :: rest) = x :: (xs ++ encodeRecords rest) := by
        show encodeRecord r ++ encodeRecords rest = _
        rw [hx]
        rfl
      rw [hsplit]
      have hlen : 32 ≤ (x :: (xs ++ encodeRecords rest)).length := by
        simp [hxs]
      rw [decodeRecordsAux]
      rw [if_pos hlen]
      have hback : x :: (xs ++ encodeRecords rest) = encodeRecord r ++ encodeRecords rest := by
        rw [hx]
        rfl
      have hdrop : (x :: (xs ++ encodeRecords rest)).drop 32 = encodeRecords rest := by
        rw [hback, ← hlen32, List.drop_left]
      have htake : (x :: (xs ++ encodeRecords rest)).take 32 = encodeRecord r := by
        rw [hback, ← hlen32, List.take_left]
      rw [hdrop, htake]
      have hrest := ih (fun q hq => hwf q (List.mem_cons_of_mem r hq)) f (by simpa using hf)
      rw [hrest]
      rw [decodeRecord_encodeRecord r (hwf r (List.mem_cons_self r rest))]

theorem decodeRecords_encodeRecords (rs : List Record) (hwf : ∀ r ∈ rs, r.WF) :
    decodeRecords (encodeRecords rs) = some rs := by
  unfold decodeRecords
  apply decodeRecordsAux_encode rs hwf
  rw [length_encodeRecords]
  have h32 : recordSize = 32 := rfl
  rw [h32]
  omega

/-- The record a tracked operation appends, when recorded as the `k`-th
timestamped event (the Init record is the 0th). -/
def trackedRecord (h : Hooks) (op : TrackedOp) (k : Nat) : Record :=
  match op with
  | .mallocOp sz r =>
    { operation := HEAP_OP_MALLOC, timestamp_us := tsVal h.timestamp_us k,
      arg1 := sz % 2^32, arg2 := r % 2^32, arg3 := 0, padding := 0, reserved := 0 }
  | .freeOp p =>
    { operation := HEAP_OP_FREE, timestamp_us := tsVal h.timestamp_us k,
      arg1 := p % 2^32, arg2 := 0, arg3 := 0, padding := 0, reserved := 0 }
  | .reallocOp o n r =>
    { operation := HEAP_OP_REALLOC, timestamp_us := tsVal h.timestamp_us k,
      arg1 := o % 2^32, arg2 := n % 2^32, arg3 := r % 2^32, padding := 0, reserved := 0 }

/-- Operation code of a tracked operation. -/
def trackedOpCode : TrackedOp → Nat
  | .mallocOp _ _ => HEAP_OP_MALLOC
  | .freeOp _ => HEAP_OP_FREE
  | .reallocOp _ _ _ => HEAP_OP_REALLOC

/-- Records of a tracked-operation sequence, clock indices from `k`. -/
def expectedOps (h : Hooks) : Nat → List TrackedOp → List Record
  | _, [] => []
  | k, op :: ops => trackedRecord h op k :: expectedOps h (k+1) ops

/-- The full record sequence a run produces: the Init record (auto-init,
clock index 0) followed by one record per tracked operation in call order. -/
def expectedTrace (cfg : Cfg) (h : Hooks) (ops : List TrackedOp) : List Record :=
  initRecordFor cfg none (tsVal h.timestamp_us 0) :: expectedOps h 1 ops

/-- Tick counter value after `m` timestamp calls. -/
def tickAfter (o : Option (Nat → Nat)) (m : Nat) : Nat :=
  match o with
  | some _ => m
  | none => 0

/-- Run invariant tying the state after some prefix of tracked operations to
the list `pre` of records produced so far (under an always-succeeding port):
initialized, port available, hooks unchanged, tick consistent, all produced
records either already at the port or still buffered, buffer within
capacity. -/
def TraceInv (cfg : Cfg) (h : Hooks) (pre : List Record) (s : St) : Prop :=
  s.tracker_initialized = true ∧
  s.streamport_available = true ∧
  s.hooks = h ∧
  s.tick = tickAfter h.timestamp_us pre.length ∧
  s.portAccum ++ encodeRecords s.heap_buffer = encodeRecords pre ∧
  s.heap_buffer.length ≤ bufferCapacity cfg

theorem tsTick_tickAfter (o : Option (Nat → Nat)) (m : Nat) :
    tsTick o (tickAfter o m) = tickAfter o (m+1) := by
  cases o <;> simp [tsTick, tickAfter]

theorem tsVal_tickAfter (o : Option (Nat → Nat)) (m : Nat) :
    tsVal o (tickAfter o m) = tsVal o m := by
  cases o <;> simp [tsVal, tickAfter]

/-- A tracked call on an uninitialized tracer behaves like the same call on
the auto-initialized tracer (lazy init). -/
theorem record_op_auto_init (cfg : Cfg) (op : TrackedOp) (s : St)
    (h : s.tracker_initialized = false) (hcap : 0 < bufferCapacity cfg) :
    runTrackedOp cfg op s = runTrackedOp cfg op (heap_inst_init cfg none s) := by
  have hi : (heap_inst_init cfg none s).tracker_initialized = true :=
    (init_uninit_core cfg none s h hcap).1
  have hx : ¬(s.tracker_initialized = true) := by simp [h]
  cases op with
  | mallocOp a b =>
    simp only [runTrackedOp]
    unfold heap_inst_record_malloc
    rw [if_neg hx, if_pos hi]
  | freeOp p =>
    simp only [runTrackedOp]
    unfold heap_inst_record_free
    rw [if_neg hx, if_pos hi]
  | reallocOp o n r =>
    simp only [runTrackedOp]
    unfold heap_inst_record_realloc
    rw [if_neg hx, if_pos hi]

/-- Shape of `log_heap_operation` on a full buffer with an available,
fully-succeeding port: drain to the port, then append the new record. -/
theorem log_heap_operation_full_success (cfg : Cfg) (r : Record) (s : St)
    (hfull : bufferCapacity cfg ≤ s.heap_buffer.length)
    (h0 : ¬s.heap_buffer.length = 0)
    (hav : s.streamport_available = true)
    (hw : cfg.port.writeFn s.portAccum (encodeRecords s.heap_buffer) =
      ((s.heap_buffer.length * recordSize : Nat) : Int)) :
    log_heap_operation cfg r s =
      { s with heap_buffer := [r],
               portAccum := s.portAccum ++ encodeRecords s.heap_buffer,
               events := s.events ++ (lockDelta s.hooks.lock ++
                 ([.portWrite (encodeRecords s.heap_buffer)
                     (cfg.port.writeFn s.portAccum (encodeRecords s.heap_buffer))] ++
                   ([.portFlush] ++ unlockDelta s.hooks.unlock))) } := by
  unfold log_heap_operation
  simp only [heapInst_lock_eq, heapInst_unlock_eq]
  rw [if_pos hfull]
  rw [flush_port_success cfg { s with events := s.events ++ lockDelta s.hooks.lock }
    h0 hav hw]
  simp [List.append_assoc]

/-- `log_heap_operation` preserves the "all records shipped or buffered"
accounting under an always-succeeding port. -/
theorem log_heap_operation_inv (cfg : Cfg) (r : Record) (s : St) (pre : List Record)
    (hcap : 0 < bufferCapacity cfg)
    (hwrite : ∀ acc bs : List Nat, cfg.port.writeFn acc bs = (bs.length : Int))
    (hav : s.streamport_available = true)
    (hacc : s.portAccum ++ encodeRecords s.heap_buffer = encodeRecords pre)
    (hlen : s.heap_buffer.length ≤ bufferCapacity cfg) :
    (log_heap_operation cfg r s).portAccum ++
        encodeRecords (log_heap_operation cfg r s).heap_buffer =
      encodeRecords (pre ++ [r]) ∧
    (log_heap_operation cfg r s).heap_buffer.length ≤ bufferCapacity cfg := by
  by_cases hfull : bufferCapacity cfg ≤ s.heap_buffer.length
  · have h0 : ¬s.heap_buffer.length = 0 := by omega
    have hw : cfg.port.writeFn s.portAccum (encodeRecords s.heap_buffer) =
        ((s.heap_buffer.length * recordSize : Nat) : Int) := by
      rw [hwrite, length_encodeRecords]
    rw [log_heap_operation_full_success cfg r s hfull h0 hav hw]
    constructor
    · show (s.portAccum ++ encodeRecords s.heap_buffer) ++ encodeRecords [r] = _
      rw [hacc, encodeRecords_append]
    · show ([r] : List Record).length ≤ bufferCapacity cfg
      simpa using hcap
  · rw [log_heap_operation_no_flush cfg r s hfull]
    constructor
    · show s.portAccum ++ encodeRecords (s.heap_buffer ++ [r]) = _
      rw [encodeRecords_append, ← List.append_assoc, hacc, ← encodeRecords_append]
    · show (s.heap_buffer ++ [r]).length ≤ bufferCapacity cfg
      simp only [List.length_append, List.length_cons, List.length_nil]
      omega

theorem log_heap_operation_stream (cfg : Cfg) (r : Record) (s : St) :
    (log_heap_operation cfg r s).streamport_available = s.streamport_available :=
  (log_heap_operation_preserves cfg r s).2.1

theorem log_heap_operation_hooks (cfg : Cfg) (r : Record) (s : St) :
    (log_heap_operation cfg r s).hooks = s.hooks :=
  (log_heap_operation_preserves cfg r s).2.2.1

theorem log_heap_operation_tick (cfg : Cfg) (r : Record) (s : St) :
    (log_heap_operation cfg r s).tick = s.tick :=
  (log_heap_operation_preserves cfg r s).2.2.2.1

/-- The invariant survives the record-append-plus-log tail every tracked
operation performs after it read the clock. -/
theorem mid_inv (cfg : Cfg) (h : Hooks) (rec : Record) (pre : List Record) (s : St)
    (msg : String)
    (hcap : 0 < bufferCapacity cfg)
    (hwrite : ∀ acc bs : List Nat, cfg.port.writeFn acc bs = (bs.length : Int))
    (htr : s.tracker_initialized = true)
    (hav : s.streamport_available = true)
    (hacc : s.portAccum ++ encodeRecords s.heap_buffer = encodeRecords pre)
    (hlen : s.heap_buffer.length ≤ bufferCapacity cfg) :
    TraceInv cfg h (pre ++ [rec])
      (heap_inst_logf cfg msg
        (log_heap_operation cfg rec
          { s with hooks := h, tick := tickAfter h.timestamp_us (pre.length + 1) })) := by
  rw [heap_inst_logf_eq]
  refine ⟨?_, ?_, ?_, ?_, ?_, ?_⟩
  · simp [log_heap_operation_tracker, htr]
  · simp [log_heap_operation_stream, hav]
  · simp [log_heap_operation_hooks]
  · simp [log_heap_operation_tick]
  · simpa using (log_heap_operation_inv cfg rec
      { s with hooks := h, tick := tickAfter h.timestamp_us (pre.length + 1) } pre hcap
      hwrite hav hacc hlen).1
  · simpa using (log_heap_operation_inv cfg rec
      { s with hooks := h, tick := tickAfter h.timestamp_us (pre.length + 1) } pre hcap
      hwrite hav hacc hlen).2

/-- One tracked operation on an initialized state extends the produced-record
list by exactly its own record. -/
theorem record_op_inv (cfg : Cfg) (h : Hooks) (op : TrackedOp) (pre : List Record)
    (s : St)
    (hcap : 0 < bufferCapacity cfg)
    (hwrite : ∀ acc bs : List Nat, cfg.port.writeFn acc bs = (bs.length : Int))
    (hinv : TraceInv cfg h pre s) :
    TraceInv cfg h (pre ++ [trackedRecord h op pre.length]) (runTrackedOp cfg op s) := by
  obtain ⟨htr, hav, hh, ht, hacc, hlen⟩ := hinv
  cases op with
  | mallocOp a b =>
    simp only [runTrackedOp]
    unfold heap_inst_record_malloc
    rw [if_pos htr]
    simp only [heap_inst_timestamp_us_eq]
    rw [hh, ht, tsTick_tickAfter, tsVal_tickAfter]
    exact mid_inv cfg h (trackedRecord h (.mallocOp a b) pre.length) pre s _
      hcap hwrite htr hav hacc hlen
  | freeOp p =>
    simp only [runTrackedOp]
    unfold heap_inst_record_free
    rw [if_pos htr]
    simp only [heap_inst_timestamp_us_eq]
    rw [hh, ht, tsTick_tickAfter, tsVal_tickAfter]
    split_ifs <;>
      exact mid_inv cfg h (trackedRecord h (.freeOp p) pre.length) pre s _
        hcap hwrite htr hav hacc hlen
  | reallocOp o n r =>
    simp only [runTrackedOp]
    unfold heap_inst_record_realloc
    rw [if_pos htr]
    simp only [heap_inst_timestamp_us_eq]
    rw [hh, ht, tsTick_tickAfter, tsVal_tickAfter]
    split_ifs <;>
      exact mid_inv cfg h (trackedRecord h (.reallocOp o n r) pre.length) pre s _
        hcap hwrite htr hav hacc hlen

/-- The first tracked call from the fresh state (hooks already registered)
auto-initializes and leaves exactly the Init record plus its own record
produced. -/
theorem first_op_inv (cfg : Cfg) (h : Hooks) (op : TrackedOp)
    (hcap : 0 < bufferCapacity cfg)
    (hwrite : ∀ acc bs : List Nat, cfg.port.writeFn acc bs = (bs.length : Int))
    (hinit0 : cfg.port.initRes = 0) :
    TraceInv cfg h
      [initRecordFor cfg none (tsVal h.timestamp_us 0), trackedRecord h op 1]
      (runTrackedOp cfg op { freshSt with hooks := h }) := by
  have h0 : ({ freshSt with hooks := h } : St).tracker_initialized = false := rfl
  rw [record_op_auto_init cfg op _ h0 hcap]
  have hcore := init_uninit_core cfg none { freshSt with hooks := h } rfl hcap
  have hinv1 : TraceInv cfg h [initRecordFor cfg none (tsVal h.timestamp_us 0)]
      (heap_inst_init cfg none { freshSt with hooks := h }) := by
    refine ⟨hcore.1, ?_, ?_, ?_, ?_, ?_⟩
    · rw [hcore.2.1]
      simp [hinit0]
    · rw [hcore.2.2.1]
    · rw [hcore.2.2.2.1]
      show tsTick h.timestamp_us 0 = tickAfter h.timestamp_us 1
      cases h.timestamp_us <;> simp [tsTick, tickAfter]
    · rw [hcore.2.2.2.2.1, hcore.2.2.2.2.2]
      simp [freshSt]
    · rw [hcore.2.2.2.2.2]
      simpa using hcap
  have hstep := record_op_inv cfg h op [initRecordFor cfg none (tsVal h.timestamp_us 0)]
    _ hcap hwrite hinv1
  simpa using hstep

/-- Running a tracked-operation sequence on a state satisfying the invariant
appends exactly the expected records, in call order. -/
theorem runTracked_inv (cfg : Cfg) (h : Hooks)
    (hcap : 0 < bufferCapacity cfg)
    (hwrite : ∀ acc bs : List Nat, cfg.port.writeFn acc bs = (bs.length : Int)) :
    ∀ (ops : List TrackedOp) (pre : List Record) (s : St), TraceInv cfg h pre s →
      TraceInv cfg h (pre ++ expectedOps h pre.length ops) (runTracked cfg ops s) := by
  intro ops
  induction ops with
  | nil => intro pre s hinv; simpa [expectedOps, runTracked] using hinv
  | cons op rest ih =>
    intro pre s hinv
    have hstep := record_op_inv cfg h op pre s hcap hwrite hinv
    have hrest := ih (pre ++ [trackedRecord h op pre.length]) _ hstep
    simp only [List.length_append, List.length_cons, List.length_nil] at hrest
    simpa [runTracked, expectedOps, List.append_assoc] using hrest

/-- A final explicit flush pushes everything still buffered, so the port has
received exactly the encoding of all produced records. -/
theorem final_flush (cfg : Cfg) (h : Hooks) (full : List Record) (sP : St)
    (hwrite : ∀ acc bs : List Nat, cfg.port.writeFn acc bs = (bs.length : Int))
    (hinv : TraceInv cfg h full sP) :
    (heap_inst_flush cfg sP).portAccum = encodeRecords full ∧
    (heap_inst_flush cfg sP).heap_buffer = [] := by
  obtain ⟨htr, hav, hh, ht, hacc, hlen⟩ := hinv
  unfold heap_inst_flush
  by_cases hb : sP.heap_buffer.length = 0
  · rw [if_neg (by rintro ⟨-, hlt⟩; omega)]
    have hbe : sP.heap_buffer = [] := List.length_eq_zero.mp hb
    rw [hbe] at hacc
    simp only [encodeRecords, List.append_nil] at hacc
    exact ⟨hacc, hbe⟩
  · rw [if_pos ⟨by rw [htr], by omega⟩]
    rw [flush_port_success cfg sP hb hav (by rw [hwrite, length_encodeRecords])]
    exact ⟨hacc, rfl⟩

theorem tsVal_lt (o : Option (Nat → Nat)) (k : Nat) : tsVal o k < 2^64 := by
  cases o with
  | none => simp [tsVal]
  | some f => exact Nat.mod_lt _ (by norm_num)

theorem triple_bound (a b c m : Nat) (h1 : a < m) (h2 : b < m) (h3 : c < m) :
    (a, b, c).1 < m ∧ (a, b, c).2.1 < m ∧ (a, b, c).2.2 < m := ⟨h1, h2, h3⟩

theorem chooseBounds_lt (cfg : Cfg) (hi : Option HeapInfo) :
    (chooseBounds cfg hi).1 < 2^32 ∧ (chooseBounds cfg hi).2.1 < 2^32 ∧
    (chooseBounds cfg hi).2.2 < 2^32 := by
  rcases hi with - | x <;>
    simp only [chooseBounds, autoBoundsWithFlag, get_auto_detected_heap_info,
      HEAP_INIT_FLAG_HEAP_INFO_VALID] <;>
    split_ifs <;>
    exact triple_bound _ _ _ _ (by omega) (by omega) (by omega)

theorem initRecordFor_WF (cfg : Cfg) (hi : Option HeapInfo) (ts : Nat)
    (hts : ts < 2^64) : (initRecordFor cfg hi ts).WF := by
  obtain ⟨c1, c2, c3⟩ := chooseBounds_lt cfg hi
  unfold Record.WF
  refine ⟨?_, ?_, ?_, ?_, ?_, ?_, ?_⟩ <;>
    simp only [initRecordFor, HEAP_OP_INIT] <;> omega

theorem trackedRecord_WF (h : Hooks) (op : TrackedOp) (k : Nat) :
    (trackedRecord h op k).WF := by
  have hts := tsVal_lt h.timestamp_us k
  unfold Record.WF
  cases op <;>
    refine ⟨?_, ?_, ?_, ?_, ?_, ?_, ?_⟩ <;>
    simp only [trackedRecord, HEAP_OP_MALLOC, HEAP_OP_FREE, HEAP_OP_REALLOC] <;> omega

theorem expectedOps_WF (h : Hooks) :
    ∀ (ops : List TrackedOp) (k : Nat) (r : Record), r ∈ expectedOps h k ops → r.WF := by
  intro ops
  induction ops with
  | nil => intro k r hr; simp [expectedOps] at hr
  | cons op rest ih =>
    intro k r hr
    simp only [expectedOps, List.mem_cons] at hr
    rcases hr with rfl | hr
    · exact trackedRecord_WF h op k
    · exact ih (k+1) r hr

theorem expectedTrace_WF (cfg : Cfg) (h : Hooks) (ops : List TrackedOp) :
    ∀ r ∈ expectedTrace cfg h ops, r.WF := by
  intro r hr
  simp only [expectedTrace, List.mem_cons] at hr
  rcases hr with rfl | hr
  · exact initRecordFor_WF cfg none _ (tsVal_lt h.timestamp_us 0)
  · exact expectedOps_WF h ops 1 r hr

theorem expectedOps_length (h : Hooks) :
    ∀ (ops : List TrackedOp) (k : Nat), (expectedOps h k ops).length = ops.length := by
  intro ops
  induction ops with
  | nil => intro k; rfl
  | cons op rest ih => intro k; simp [expectedOps, ih]

theorem expectedOps_get (h : Hooks) :
    ∀ (ops : List TrackedOp) (k i : Nat),
      ((expectedOps h k ops).get? i).map Record.operation =
        (ops.get? i).map trackedOpCode := by
  intro ops
  induction ops with
  | nil => intro k i; rfl
  | cons op rest ih =>
    intro k i
    cases i with
    | zero => cases op <;> rfl
    | succ j => simpa [expectedOps] using ih (k+1) j

/-- C3: For any non-empty sequence of N tracked operations with no explicit
flush in between, starting from the fresh (uninitialized) state with any hook
set registered, under a stream port that initializes successfully and accepts
every write in full, the bytes accumulated at the port after the final flush
decode to exactly N+1 records in call order, the first always the Init record
(auto-initialization by the first tracked call), with each later record
carrying the operation code of the corresponding call. -/
theorem flushed_stream_decodes_in_call_order (cfg : Cfg) (h : Hooks)
    (ops : List TrackedOp)
    (hcap : 0 < bufferCapacity cfg)
    (hinit0 : cfg.port.initRes = 0)
    (hwrite : ∀ acc bs : List Nat, cfg.port.writeFn acc bs = (bs.length : Int))
    (hne : ops ≠ []) :
    (heap_inst_flush cfg (runTracked cfg ops { freshSt with hooks := h })).portAccum =
      encodeRecords (expectedTrace cfg h ops) ∧
    decodeRecords ((heap_inst_flush cfg (runTracked cfg ops
        { freshSt with hooks := h })).portAccum) = some (expectedTrace cfg h ops) ∧
    (heap_inst_flush cfg (runTracked cfg ops { freshSt with hooks := h })).heap_buffer
      = [] ∧
    (expectedTrace cfg h ops).length = ops.length + 1 ∧
    (expectedTrace cfg h ops).head? =
      some (initRecordFor cfg none (tsVal h.timestamp_us 0)) ∧
    (initRecordFor cfg none (tsVal h.timestamp_us 0)).operation = HEAP_OP_INIT ∧
    (∀ i : Nat, i < ops.length →
      ((expectedTrace cfg h ops).get? (i+1)).map Record.operation =
        (ops.get? i).map trackedOpCode) := by
  have hfullinv : TraceInv cfg h (expectedTrace cfg h ops)
      (runTracked cfg ops { freshSt with hooks := h }) := by
    cases ops with
    | nil => exact absurd rfl hne
    | cons op rest =>
      have h1 := first_op_inv cfg h op hcap hwrite hinit0
      have h2 := runTracked_inv cfg h hcap hwrite rest
        [initRecordFor cfg none (tsVal h.timestamp_us 0), trackedRecord h op 1] _ h1
      simpa [runTracked, expectedTrace, expectedOps] using h2
  have hfl := final_flush cfg h (expectedTrace cfg h ops) _ hwrite hfullinv
  refine ⟨hfl.1, ?_, hfl.2, ?_, rfl, rfl, ?_⟩
  · rw [hfl.1]
    exact decodeRecords_encodeRecords _ (expectedTrace_WF cfg h ops)
  · simp [expectedTrace, expectedOps_length]
  · intro i hi
    simp only [expectedTrace, List.get?]
    exact expectedOps_get h ops 1 i

/-- Closed instance of C3: one tracked malloc from the fresh state under a
reliable port yields a 2-record trace (Init first). -/
theorem flushed_stream_decodes_in_call_order_witness :
    (expectedTrace (⟨true, 4096, false, 0, 0, ⟨0, fun _ bs => (bs.length : Int)⟩⟩ : Cfg)
      emptyHooks [TrackedOp.mallocOp 16 1024]).length = 1 + 1 := by
  exact (flushed_stream_decodes_in_call_order
    (⟨true, 4096, false, 0, 0, ⟨0, fun _ bs => (bs.length : Int)⟩⟩ : Cfg)
    emptyHooks [TrackedOp.mallocOp 16 1024] (by decide) rfl (fun acc bs => rfl)
    (by simp)).2.2.2.1

end HeapInst
